import Mathlib

/-!
Shallow embedding of the phase-based timeout supervisor
(source file: the default export of the timed-out module, plus its
TimeoutError class).

Modelling choices, traced to the source:

* Each call to the inner helper addTimeout(delay, callback, ...args)
  creates one primary deadline (setTimeout) whose elapse schedules a
  deferred invocation (setImmediate) of the callback.  Every call site
  passes timeoutHandler as the callback, with the delay and the phase
  name as its arguments, so a timer is fully described by its delay, its
  phase-name string, and a four-state automaton:
    waiting   -- setTimeout armed, not yet elapsed
    deferred  -- setTimeout elapsed, setImmediate scheduled, callback not run
    done      -- the deferred callback ran
    canceled  -- clearTimeout or clearImmediate happened first
  clearTimeout/clearImmediate on a spent timer are no-ops, which the
  automaton reflects (done stays done, canceled stays canceled).

* Listener registration: request.on(...) installs an untracked,
  non-once listener; the once(...) helper of the unhandler installs a
  tracked once listener.  The unhandler itself is not under src, so its
  unhandleAll is modelled from the spec (see unhandleAll below).

* The host scheduler (event loop) is an adversary choosing steps:
  firing armed deadlines, running scheduled immediates, delivering
  lifecycle events, invoking the returned cancel handle, and letting
  other collaborators subscribe (foreign listeners).

* net.isIP and the socket sub-state are external to the repository:
  the context carries an arbitrary Boolean-valued classifier for
  hostnames, and each socket event carries the connecting flag and
  whether the socket already has a resolved address.
-/

namespace TimedOut

/-- The four-state automaton of one addTimeout instance. -/
inductive TState where
  | waiting
  | deferred
  | done
  | canceled
deriving DecidableEq, Repr

/-- One timer created by addTimeout: its delay, the phase name passed to
timeoutHandler, and its automaton state. -/
structure Timer where
  delay : Nat
  event : String
  tstate : TState
deriving DecidableEq, Repr

/-- The three event sources of the lifecycle (request, socket, response). -/
inductive Emitter where
  | request
  | socket
  | response
deriving DecidableEq, Repr

/-- Defunctionalized handler closures of the source file.  Each constructor
is one closure literal of the timed-out module; foreign stands for a
listener installed by some other collaborator on a shared source. -/
inductive Handler where
  | errorListener
  | responseListener
  | endListener
  | socketListener
  | timerCancel (i : Nat)
  | connectLookupListener
  | secureConnectConnectListener
  | sendConnectListener
  | responseUploadListener
  | socketTimeoutHandler
  | foreign (k : Nat)
deriving DecidableEq, Repr

/-- A registered listener: target emitter, event name, handler, whether it
was registered with once semantics, and whether the unhandler tracks it. -/
structure Listener where
  target : Emitter
  ev : String
  h : Handler
  isOnce : Bool
  tracked : Bool
deriving DecidableEq, Repr

/-- Entries of the cancelers array: the cancel closure of addTimeout
instance i, or the closure removing the native socket-timeout listener. -/
inductive Canceler where
  | timer (i : Nat)
  | removeSocketTimeoutListener
deriving DecidableEq, Repr

/-- A JavaScript error value, restricted to the fields the source reads or
writes: name, message, the code property, and the event property of
TimeoutError.  The threshold of a TimeoutError appears only inside its
message, as in the source constructor. -/
structure ErrObj where
  name : String
  message : String
  code : Option String
  event : Option String
deriving DecidableEq, Repr

/-- The single-quote character, used by the TimeoutError message template. -/
def sq : String := String.mk [Char.ofNat 39]

/-- The TimeoutError class: name TimeoutError, code ETIMEDOUT, the event
field, and the message template of the constructor. -/
def TimeoutError (threshold : Nat) (event : String) : ErrObj :=
  { name := "TimeoutError"
    message := "Timeout awaiting " ++ sq ++ event ++ sq ++ " for " ++ toString threshold ++ "ms"
    code := some "ETIMEDOUT"
    event := some event }

/-- The Delays configuration: an optional millisecond threshold per phase. -/
structure Delays where
  lookup : Option Nat
  connect : Option Nat
  secureConnect : Option Nat
  socket : Option Nat
  response : Option Nat
  send : Option Nat
  request : Option Nat
deriving DecidableEq, Repr

/-- The options argument of the default export (host, hostname, protocol). -/
structure TimedOutOptions where
  host : Option String
  hostname : Option String
  protocol : Option String
deriving DecidableEq, Repr

/-- Everything fixed for one attach call: the delay configuration, the
options, whether the request has a truthy socketPath, and the external
net.isIP classifier (truthiness of its numeric result). -/
structure Ctx where
  delays : Delays
  options : TimedOutOptions
  socketPath : Bool
  isIP : String → Bool

/-- Payload of a delivered event. -/
inductive EvData where
  | unit
  | err (e : ErrObj)
  | lookupRes (e : Option ErrObj)
  | socketInfo (connecting : Bool) (hasAddress : Bool)
  | response
deriving DecidableEq, Repr

/-- The mutable world owned by one attach call: the addTimeout instances in
creation order, the registered listeners, the cancelers array, the
reentry marker of the request, the aborted flag, and the list of
TimeoutError values the breach handler emitted. -/
structure St where
  timers : List Timer
  listeners : List Listener
  cancelers : List Canceler
  reentry : Bool
  aborted : Bool
  emitted : List ErrObj
deriving DecidableEq, Repr

/-- The world before attach: nothing installed, request unmarked. -/
def initSt : St :=
  { timers := [], listeners := [], cancelers := [], reentry := false
    aborted := false, emitted := [] }

/-- Pointwise update of the element at position i, identity elsewhere. -/
def mapAt : Nat → (Timer → Timer) → List Timer → List Timer
  | _, _, [] => []
  | 0, f, t :: ts => f t :: ts
  | n + 1, f, t :: ts => t :: mapAt n f ts

/-- Effect of the cancel closure of addTimeout on one timer:
clearTimeout kills a waiting deadline, clearImmediate kills a scheduled
deferred invocation, and both are no-ops on a spent timer. -/
def cancelOne (t : Timer) : Timer :=
  { t with tstate := match t.tstate with
      | TState.done => TState.done
      | _ => TState.canceled }

/-- The cancel closure of addTimeout instance i acting on the timer list. -/
def cancelAt (i : Nat) (ts : List Timer) : List Timer :=
  mapAt i cancelOne ts

/-- Register one listener (origin.on or origin.once both append). -/
def addL (l : Listener) (s : St) : St :=
  { s with listeners := s.listeners ++ [l] }

/-- The addTimeout helper: create a waiting timer for the given delay and
phase name, push its cancel closure onto the cancelers array, and return
the index identifying the new timer (its cancel handle). -/
def addTimeout (d : Nat) (ev : String) (s : St) : Nat × St :=
  (s.timers.length,
   { s with
      timers := s.timers ++ [{ delay := d, event := ev, tstate := TState.waiting }]
      cancelers := s.cancelers ++ [Canceler.timer s.timers.length] })

/-- Run one entry of the cancelers array. -/
def runCancel (c : Canceler) (s : St) : St :=
  match c with
  | Canceler.timer i => { s with timers := cancelAt i s.timers }
  | Canceler.removeSocketTimeoutListener =>
      { s with listeners := s.listeners.filter fun l =>
          !(decide (l.target = Emitter.request) && decide (l.ev = "timeout")
            && decide (l.h = Handler.socketTimeoutHandler)) }

/-- Modelled from the spec: the unhandler (module unhandle, not under src)
records every subscription registered through its once helper and its
unhandleAll removes exactly those subscriptions from their origins,
leaving untracked listeners in place. -/
def unhandleAll (s : St) : St :=
  { s with listeners := s.listeners.filter fun l => !l.tracked }

/-- The cancelTimeouts closure returned by attach: run every cancel closure
pushed so far, then release all tracked subscriptions. -/
def cancelTimeouts (s : St) : St :=
  unhandleAll (s.cancelers.foldl (fun s c => runCancel c s) s)

/-- The JavaScript expression hostname or-else host (empty string and
absence are both falsy). -/
def hostTarget (o : TimedOutOptions) : Option String :=
  match o.hostname with
  | some h => if h = "" then o.host else some h
  | none => o.host

/-- Truthiness of net.isIP(hostname or-else host); net.isIP of undefined
is 0, hence falsy. -/
def isIPTarget (ctx : Ctx) : Bool :=
  match hostTarget ctx.options with
  | some h => ctx.isIP h
  | none => false

/-- The configured delay of a phase name, none for unknown names. -/
def phaseDelay (ctx : Ctx) (ev : String) : Option Nat :=
  if ev = "lookup" then ctx.delays.lookup
  else if ev = "connect" then ctx.delays.connect
  else if ev = "secureConnect" then ctx.delays.secureConnect
  else if ev = "socket" then ctx.delays.socket
  else if ev = "send" then ctx.delays.send
  else if ev = "response" then ctx.delays.response
  else if ev = "request" then ctx.delays.request
  else none

/-- Lookup-phase block of the socket listener (lines 121 to 124 of the
source): with a lookup delay configured, no unix socket path, a
non-literal-IP target and no resolved address yet, arm the lookup timer
and register its cancel on the socket lookup signal. -/
def lookupPart (ctx : Ctx) (hasAddress : Bool) (s : St) : St :=
  match ctx.delays.lookup with
  | some d =>
    if !ctx.socketPath && !isIPTarget ctx && !hasAddress then
      let (i, s) := addTimeout d ("lookup") s
      addL { target := Emitter.socket, ev := "lookup", h := Handler.timerCancel i
             isOnce := true, tracked := true } s
    else s
  | none => s

/-- Connect-phase block of the socket listener (lines 126 to 138): with a
connect delay configured, arm the connect timer immediately for a unix
socket path or a literal IP target, registering its cancel on connect;
otherwise wait for the lookup signal and let its handler decide. -/
def connectPart (ctx : Ctx) (s : St) : St :=
  match ctx.delays.connect with
  | some d =>
    if ctx.socketPath || isIPTarget ctx then
      let (i, s) := addTimeout d ("connect") s
      addL { target := Emitter.socket, ev := "connect", h := Handler.timerCancel i
             isOnce := true, tracked := true } s
    else
      addL { target := Emitter.socket, ev := "lookup", h := Handler.connectLookupListener
             isOnce := true, tracked := true } s
  | none => s

/-- SecureConnect-phase block of the socket listener (lines 140 to 145):
with a secureConnect delay configured and a secure protocol, register
the arming handler on the transport connect signal. -/
def securePart (ctx : Ctx) (s : St) : St :=
  if ctx.delays.secureConnect.isSome && decide (ctx.options.protocol = some "https:") then
    addL { target := Emitter.socket, ev := "connect", h := Handler.secureConnectConnectListener
           isOnce := true, tracked := true } s
  else s

/-- Send-phase block of the socket listener (lines 148 to 158): with a send
delay configured, arm the send timer at once and register its cancel on
upload-complete when the socket is already connected, otherwise register
that arming to happen on the transport connect signal. -/
def sendPart (ctx : Ctx) (connecting : Bool) (s : St) : St :=
  match ctx.delays.send with
  | some d =>
    if connecting then
      addL { target := Emitter.socket, ev := "connect", h := Handler.sendConnectListener
             isOnce := true, tracked := true } s
    else
      let (i, s) := addTimeout d ("send") s
      addL { target := Emitter.request, ev := "upload-complete", h := Handler.timerCancel i
             isOnce := true, tracked := true } s
  | none => s

/-- Body of the once(request, socket) listener, lines 115 to 159 of the
source: the three connecting-only phase blocks in source order, then the
send block. -/
def socketBody (ctx : Ctx) (connecting : Bool) (hasAddress : Bool) (s : St) : St :=
  sendPart ctx connecting
    (if connecting then securePart ctx (connectPart ctx (lookupPart ctx hasAddress s)) else s)

/-- Node emit semantics: snapshot the listeners of the event, drop the once
listeners among them, then run every snapshotted handler in order. -/
def emitWith (run : Handler → EvData → St → St)
    (tgt : Emitter) (ev : String) (d : EvData) (s : St) : St :=
  let snap := s.listeners.filter fun l => decide (l.target = tgt) && decide (l.ev = ev)
  let s1 := { s with listeners := s.listeners.filter fun l =>
      !(decide (l.target = tgt) && decide (l.ev = ev) && l.isOnce) }
  snap.foldl (fun acc l => run l.h d acc) s1

/-- The timeoutHandler closure: emit a fresh TimeoutError on the request
error channel (delivering it to the error listeners) and abort the
request.  It never touches the cancelers array or the timers itself. -/
def timeoutHandlerGo (run : Handler → EvData → St → St)
    (delay : Nat) (event : String) (s : St) : St :=
  let e := TimeoutError delay event
  let s1 := { s with emitted := s.emitted ++ [e] }
  let s2 := emitWith run Emitter.request ("error") (EvData.err e) s1
  { s2 with aborted := true }

/-- Fuel-indexed interpreter of the defunctionalized handlers.  The fuel
bounds nested emissions; in every state the machine reaches, handler
nesting is at most two deep (an event handler calling timeoutHandler,
which emits error), so any fuel of at least three is exact. -/
def runHandlerD : Nat → Ctx → Handler → EvData → St → St
  | 0, _, _, _, s => s
  | _ + 1, _, Handler.errorListener, EvData.err e, s =>
      if e.message = "socket hang up" then s else cancelTimeouts s
  | _ + 1, _, Handler.errorListener, _, s => s
  | _ + 1, _, Handler.responseListener, _, s =>
      addL { target := Emitter.response, ev := "end", h := Handler.endListener
             isOnce := true, tracked := true } s
  | _ + 1, _, Handler.endListener, _, s => cancelTimeouts s
  | _ + 1, ctx, Handler.socketListener, EvData.socketInfo c a, s => socketBody ctx c a s
  | _ + 1, _, Handler.socketListener, _, s => s
  | _ + 1, _, Handler.timerCancel i, _, s => { s with timers := cancelAt i s.timers }
  | _ + 1, ctx, Handler.connectLookupListener, EvData.lookupRes none, s =>
      (match ctx.delays.connect with
       | some d =>
         let (i, s) := addTimeout d ("connect") s
         addL { target := Emitter.socket, ev := "connect", h := Handler.timerCancel i
                isOnce := true, tracked := true } s
       | none => s)
  | _ + 1, _, Handler.connectLookupListener, _, s => s
  | _ + 1, ctx, Handler.secureConnectConnectListener, _, s =>
      (match ctx.delays.secureConnect with
       | some d =>
         let (i, s) := addTimeout d ("secureConnect") s
         addL { target := Emitter.socket, ev := "secureConnect", h := Handler.timerCancel i
                isOnce := true, tracked := true } s
       | none => s)
  | _ + 1, ctx, Handler.sendConnectListener, _, s =>
      (match ctx.delays.send with
       | some d =>
         let (i, s) := addTimeout d ("send") s
         addL { target := Emitter.request, ev := "upload-complete", h := Handler.timerCancel i
                isOnce := true, tracked := true } s
       | none => s)
  | _ + 1, ctx, Handler.responseUploadListener, _, s =>
      (match ctx.delays.response with
       | some d =>
         let (i, s) := addTimeout d ("response") s
         addL { target := Emitter.request, ev := "response", h := Handler.timerCancel i
                isOnce := true, tracked := true } s
       | none => s)
  | n + 1, ctx, Handler.socketTimeoutHandler, _, s =>
      (match ctx.delays.socket with
       | some d => timeoutHandlerGo (fun h e s => runHandlerD n ctx h e s) d ("socket") s
       | none => s)
  | _ + 1, _, Handler.foreign _, _, s => s

/-- Fixed fuel; handler nesting in reachable states is at most two. -/
def fuelF : Nat := 8

/-- The handler interpreter at the fixed fuel. -/
def runHandler (ctx : Ctx) (h : Handler) (d : EvData) (s : St) : St :=
  runHandlerD fuelF ctx h d s

/-- Deliver one event to the machine. -/
def emitEvent (ctx : Ctx) (tgt : Emitter) (ev : String) (d : EvData) (s : St) : St :=
  emitWith (fun h e s => runHandler ctx h e s) tgt ev d s

/-- The timeoutHandler closure at the fixed fuel. -/
def timeoutHandler (ctx : Ctx) (delay : Nat) (event : String) (s : St) : St :=
  timeoutHandlerGo (fun h e s => runHandler ctx h e s) delay event s

/-- First actions of an attach that passes the reentry guard: mark the
request and install the persistent error listener (line 86, request.on)
and the tracked response listener (line 92, once). -/
def attachBase (s : St) : St :=
  addL { target := Emitter.request, ev := "response", h := Handler.responseListener
         isOnce := true, tracked := true }
    (addL { target := Emitter.request, ev := "error", h := Handler.errorListener
            isOnce := false, tracked := false }
      { s with reentry := true })

/-- Overall request timer, armed at attach when configured (line 96). -/
def requestPart (ctx : Ctx) (s : St) : St :=
  match ctx.delays.request with
  | some d => (addTimeout d ("request") s).2
  | none => s

/-- Native socket idle timeout (lines 100 to 113): request.setTimeout
installs the handler on the timeout signal, and the pushed canceler
removes exactly that listener again. -/
def sockTimeoutPart (ctx : Ctx) (s : St) : St :=
  match ctx.delays.socket with
  | some _ =>
    let s := addL { target := Emitter.request, ev := "timeout", h := Handler.socketTimeoutHandler
                    isOnce := false, tracked := false } s
    { s with cancelers := s.cancelers ++ [Canceler.removeSocketTimeoutListener] }
  | none => s

/-- Response-phase arming listener on upload-complete (lines 161 to 166). -/
def responsePart (ctx : Ctx) (s : St) : St :=
  match ctx.delays.response with
  | some _ => addL { target := Emitter.request, ev := "upload-complete", h := Handler.responseUploadListener
                     isOnce := true, tracked := true } s
  | none => s

/-- The default export: if the request is already marked, return the no-op
(first component false) and change nothing; otherwise mark the request,
subscribe the error, response and socket listeners, arm the overall
request timer if configured, install the native socket idle-timeout
handler if configured, and subscribe the response-phase arming on
upload-complete if configured, in source order.  The Boolean first
component identifies the returned handle: true for the real
cancelTimeouts, false for noop. -/
def attachTo (ctx : Ctx) (s : St) : Bool × St :=
  if s.reentry then (false, s)
  else
    (true,
     responsePart ctx
       (addL { target := Emitter.request, ev := "socket", h := Handler.socketListener
               isOnce := true, tracked := true }
         (sockTimeoutPart ctx (requestPart ctx (attachBase s)))))

/-- Invoking a returned handle: the real one runs cancelTimeouts, the
reentry no-op does nothing. -/
def runHandle : Bool → St → St
  | true, s => cancelTimeouts s
  | false, s => s

/-- One scheduler step chosen by the environment: a primary deadline
elapses, a scheduled immediate runs, a lifecycle event is delivered, the
caller invokes the cancel handle, or another collaborator subscribes. -/
inductive Step where
  | fireTimeout (i : Nat)
  | runImmediate (i : Nat)
  | emitReqError (e : ErrObj)
  | emitResponse
  | emitResponseEnd
  | emitSocket (connecting : Bool) (hasAddress : Bool)
  | emitLookup (e : Option ErrObj)
  | emitConnect
  | emitSecureConnect
  | emitUploadComplete
  | emitNativeTimeout
  | callCancelAll
  | addForeign (target : Emitter) (ev : String) (k : Nat)
deriving DecidableEq, Repr

/-- Semantics of one scheduler step. -/
def step (ctx : Ctx) : Step → St → St
  | Step.fireTimeout i, s =>
    (match s.timers[i]? with
     | some t =>
       if t.tstate = TState.waiting then
         { s with timers := mapAt i (fun u => { u with tstate := TState.deferred }) s.timers }
       else s
     | none => s)
  | Step.runImmediate i, s =>
    (match s.timers[i]? with
     | some t =>
       if t.tstate = TState.deferred then
         timeoutHandler ctx t.delay t.event
           { s with timers := mapAt i (fun u => { u with tstate := TState.done }) s.timers }
       else s
     | none => s)
  | Step.emitReqError e, s => emitEvent ctx Emitter.request ("error") (EvData.err e) s
  | Step.emitResponse, s => emitEvent ctx Emitter.request ("response") EvData.response s
  | Step.emitResponseEnd, s => emitEvent ctx Emitter.response ("end") EvData.unit s
  | Step.emitSocket c a, s => emitEvent ctx Emitter.request ("socket") (EvData.socketInfo c a) s
  | Step.emitLookup e, s => emitEvent ctx Emitter.socket ("lookup") (EvData.lookupRes e) s
  | Step.emitConnect, s => emitEvent ctx Emitter.socket ("connect") EvData.unit s
  | Step.emitSecureConnect, s => emitEvent ctx Emitter.socket ("secureConnect") EvData.unit s
  | Step.emitUploadComplete, s => emitEvent ctx Emitter.request ("upload-complete") EvData.unit s
  | Step.emitNativeTimeout, s => emitEvent ctx Emitter.request ("timeout") EvData.unit s
  | Step.callCancelAll, s => cancelTimeouts s
  | Step.addForeign tgt ev k, s =>
      addL { target := tgt, ev := ev, h := Handler.foreign k, isOnce := false, tracked := false } s

/-- Run a list of scheduler steps. -/
def run (ctx : Ctx) (l : List Step) (s : St) : St :=
  l.foldl (fun s a => step ctx a s) s

/-- States the machine can be in after one attach on a fresh request,
followed by any scheduling. -/
inductive Reachable (ctx : Ctx) : St → Prop where
  | base : Reachable ctx (attachTo ctx initSt).2
  | next (a : Step) {s : St} : Reachable ctx s → Reachable ctx (step ctx a s)

/-- The persistent error listener attach installs with request.on. -/
def errListener : Listener :=
  { target := Emitter.request, ev := "error", h := Handler.errorListener
    isOnce := false, tracked := false }

/-- Whether a handler is one of those the unhandler tracks. -/
def trackedHandler : Handler → Bool
  | Handler.responseListener => true
  | Handler.socketListener => true
  | Handler.endListener => true
  | Handler.timerCancel _ => true
  | Handler.connectLookupListener => true
  | Handler.secureConnectConnectListener => true
  | Handler.sendConnectListener => true
  | Handler.responseUploadListener => true
  | _ => false

/-- Shape every listener of a reachable state has: the persistent error
listener at its slot, a foreign listener, the native socket-timeout
handler at the timeout slot, or a tracked once listener away from the
error and timeout slots. -/
def goodListener (l : Listener) : Bool :=
  match l.h with
  | Handler.errorListener =>
      decide (l.target = Emitter.request) && decide (l.ev = "error") && !l.isOnce && !l.tracked
  | Handler.foreign _ => !l.isOnce && !l.tracked
  | Handler.socketTimeoutHandler =>
      decide (l.target = Emitter.request) && decide (l.ev = "timeout") && !l.isOnce && !l.tracked
  | _ =>
      l.isOnce && l.tracked
      && !(decide (l.target = Emitter.request) && (decide (l.ev = "error") || decide (l.ev = "timeout")))

/-- Handlers that can neither arm a timer nor raise a TimeoutError. -/
def plainHandler : Handler → Bool
  | Handler.errorListener => true
  | Handler.foreign _ => true
  | _ => false

/-- A spent timer: canceled or already fired. -/
def deadT (t : Timer) : Bool :=
  match t.tstate with
  | TState.canceled => true
  | TState.done => true
  | _ => false

/-- Whether a handler is a foreign listener. -/
def isForeignB : Handler → Bool
  | Handler.foreign _ => true
  | _ => false

/-- Invariant of reachable states. -/
structure Inv (ctx : Ctx) (s : St) : Prop where
  cov : ∀ i, i < s.timers.length → Canceler.timer i ∈ s.cancelers
  cfg : ∀ t ∈ s.timers, phaseDelay ctx t.event = some t.delay
  good : ∀ l ∈ s.listeners, goodListener l = true
  errL : errListener ∈ s.listeners
  sockCov : ∀ l ∈ s.listeners, l.h = Handler.socketTimeoutHandler →
      Canceler.removeSocketTimeoutListener ∈ s.cancelers ∧ ctx.delays.socket.isSome = true
  reent : s.reentry = true

/-- A fully detached world: every timer spent, only the persistent error
listener and foreign listeners remain. -/
def Detached (s : St) : Prop :=
  (∀ t ∈ s.timers, deadT t = true) ∧ (∀ l ∈ s.listeners, plainHandler l.h = true)

/-- Allowed evolutions of one timer state over time. -/
def evolves : TState → TState → Bool
  | TState.waiting, _ => true
  | TState.deferred, TState.deferred => true
  | TState.deferred, TState.done => true
  | TState.deferred, TState.canceled => true
  | TState.done, TState.done => true
  | TState.canceled, TState.canceled => true
  | _, _ => false

/-- Timer-list evolution: indices are stable, delay and phase never change,
and each state only moves along the automaton. -/
def TEvol (ts ts' : List Timer) : Prop :=
  ∀ (i : Nat) (t : Timer), ts[i]? = some t → ∃ t', ts'[i]? = some t' ∧
    t'.delay = t.delay ∧ t'.event = t.event ∧ evolves t.tstate t'.tstate = true

/-- The timers of a state restricted to one phase name. -/
def timersOf (ev : String) (s : St) : List Timer :=
  s.timers.filter fun t => decide (t.event = ev)

/-- The listeners of a state installed by other collaborators. -/
def foreignListeners (s : St) : List Listener :=
  s.listeners.filter fun l => isForeignB l.h

/-- A concrete context used by witnesses: request and socket phases
configured, nothing else, no socket path, no literal IP. -/
def ctxEx : Ctx :=
  { delays := { lookup := none, connect := none, secureConnect := none
                socket := some 7, response := none, send := none, request := some 5 }
    options := { host := some "example.com", hostname := none, protocol := some "http:" }
    socketPath := false
    isIP := fun _ => false }

/-- A concrete context with every phase configured, a secure protocol, no
socket path and a non-IP hostname. -/
def ctxAll : Ctx :=
  { delays := { lookup := some 1, connect := some 2, secureConnect := some 3
                socket := some 7, response := some 4, send := some 6, request := some 5 }
    options := { host := some "example.com", hostname := none, protocol := some "https:" }
    socketPath := false
    isIP := fun _ => false }

/-- A concrete context like ctxAll but connecting over a unix socket path. -/
def ctxPath : Ctx :=
  { delays := { lookup := some 1, connect := some 2, secureConnect := some 3
                socket := some 7, response := some 4, send := some 6, request := some 5 }
    options := { host := some "example.com", hostname := none, protocol := some "https:" }
    socketPath := true
    isIP := fun _ => false }

theorem mapAt_length (i : Nat) (f : Timer → Timer) (ts : List Timer) :
    (mapAt i f ts).length = ts.length := by
  induction ts generalizing i with
  | nil => cases i <;> rfl
  | cons t ts ih =>
    cases i with
    | zero => rfl
    | succ n => simpa [mapAt] using ih n

theorem getElem?_mapAt_self (i : Nat) (f : Timer → Timer) (ts : List Timer) :
    (mapAt i f ts)[i]? = (ts[i]?).map f := by
  induction ts generalizing i with
  | nil => cases i <;> simp [mapAt]
  | cons t ts ih =>
    cases i with
    | zero => simp [mapAt]
    | succ n => simpa [mapAt] using ih n

theorem getElem?_mapAt_ne (i j : Nat) (f : Timer → Timer) (ts : List Timer)
    (h : i ≠ j) : (mapAt i f ts)[j]? = ts[j]? := by
  induction ts generalizing i j with
  | nil => cases i <;> simp [mapAt]
  | cons t ts ih =>
    cases i with
    | zero =>
      cases j with
      | zero => exact absurd rfl h
      | succ m => simp [mapAt]
    | succ n =>
      cases j with
      | zero => simp [mapAt]
      | succ m =>
        have : n ≠ m := fun hnm => h (by simp [hnm])
        simpa [mapAt] using ih n m this

theorem mem_mapAt (i : Nat) (f : Timer → Timer) (ts : List Timer) (x : Timer)
    (hx : x ∈ mapAt i f ts) : x ∈ ts ∨ ∃ t, t ∈ ts ∧ x = f t := by
  induction ts generalizing i with
  | nil => simp [mapAt] at hx
  | cons t ts ih =>
    cases i with
    | zero =>
      simp only [mapAt, List.mem_cons] at hx
      rcases hx with h | h
      · exact Or.inr ⟨t, List.mem_cons_self t ts, h⟩
      · exact Or.inl (List.mem_cons_of_mem t h)
    | succ n =>
      simp only [mapAt, List.mem_cons] at hx
      rcases hx with h | h
      · exact Or.inl (by simp [h])
      · rcases ih n h with h' | ⟨u, hu, hxu⟩
        · exact Or.inl (List.mem_cons_of_mem t h')
        · exact Or.inr ⟨u, List.mem_cons_of_mem t hu, hxu⟩

theorem filter_id_of {α : Type} (p : α → Bool) (l : List α)
    (h : ∀ a ∈ l, p a = true) : l.filter p = l := by
  induction l with
  | nil => rfl
  | cons x xs ih =>
    have hx := h x (List.mem_cons_self x xs)
    simp [List.filter, hx, ih fun a ha => h a (List.mem_cons_of_mem x ha)]

theorem foldl_pres {α σ : Type} (P : σ → Prop) (f : σ → α → σ)
    (l : List α) (s : σ) (hs : P s)
    (hf : ∀ s a, a ∈ l → P s → P (f s a)) : P (l.foldl f s) := by
  induction l generalizing s with
  | nil => exact hs
  | cons x xs ih =>
    exact ih (f s x) (hf s x (List.mem_cons_self x xs) hs)
      fun s a ha hP => hf s a (List.mem_cons_of_mem x ha) hP

theorem foldl_estab2 {α σ : Type} (P Q : σ → Prop) (f : σ → α → σ)
    (l : List α) (a : α) (ha : a ∈ l)
    (hPf : ∀ s b, b ∈ l → P s → P (f s b))
    (hest : ∀ s, P s → Q (f s a))
    (hQ : ∀ s b, b ∈ l → Q s → Q (f s b)) :
    ∀ s, P s → Q (l.foldl f s) := by
  induction l with
  | nil => cases ha
  | cons x xs ih =>
    intro s hP
    rcases List.mem_cons.mp ha with hax | hax
    · subst hax
      exact foldl_pres Q f xs (f s a) (hest s hP)
        fun s b hb => hQ s b (List.mem_cons_of_mem a hb)
    · exact ih hax
        (fun s b hb => hPf s b (List.mem_cons_of_mem x hb))
        (fun s b hb => hQ s b (List.mem_cons_of_mem x hb))
        (f s x) (hPf s x (List.mem_cons_self x xs) hP)

theorem foldl_fix {α σ : Type} (f : σ → α → σ) (l : List α) (s : σ)
    (h : ∀ a ∈ l, f s a = s) : l.foldl f s = s := by
  induction l with
  | nil => rfl
  | cons x xs ih =>
    rw [List.foldl_cons, h x (List.mem_cons_self x xs)]
    exact ih fun a ha => h a (List.mem_cons_of_mem x ha)

theorem runCancel_emitted (c : Canceler) (s : St) :
    (runCancel c s).emitted = s.emitted := by cases c <;> rfl

theorem runCancel_cancelers (c : Canceler) (s : St) :
    (runCancel c s).cancelers = s.cancelers := by cases c <;> rfl

theorem runCancel_reentry (c : Canceler) (s : St) :
    (runCancel c s).reentry = s.reentry := by cases c <;> rfl

theorem runCancel_aborted (c : Canceler) (s : St) :
    (runCancel c s).aborted = s.aborted := by cases c <;> rfl

theorem cancelTimeouts_emitted (s : St) :
    (cancelTimeouts s).emitted = s.emitted := by
  unfold cancelTimeouts unhandleAll
  exact foldl_pres (fun u => u.emitted = s.emitted) _ s.cancelers s rfl
    fun u c _ h => (runCancel_emitted c u).trans h

theorem cancelTimeouts_cancelers (s : St) :
    (cancelTimeouts s).cancelers = s.cancelers := by
  unfold cancelTimeouts unhandleAll
  exact foldl_pres (fun u => u.cancelers = s.cancelers) _ s.cancelers s rfl
    fun u c _ h => (runCancel_cancelers c u).trans h

theorem cancelTimeouts_reentry (s : St) :
    (cancelTimeouts s).reentry = s.reentry := by
  unfold cancelTimeouts unhandleAll
  exact foldl_pres (fun u => u.reentry = s.reentry) _ s.cancelers s rfl
    fun u c _ h => (runCancel_reentry c u).trans h

theorem cancelTimeouts_aborted (s : St) :
    (cancelTimeouts s).aborted = s.aborted := by
  unfold cancelTimeouts unhandleAll
  exact foldl_pres (fun u => u.aborted = s.aborted) _ s.cancelers s rfl
    fun u c _ h => (runCancel_aborted c u).trans h

theorem evolves_refl (a : TState) : evolves a a = true := by cases a <;> rfl

theorem evolves_trans : ∀ a b c : TState,
    evolves a b = true → evolves b c = true → evolves a c = true := by
  intro a b c
  cases a <;> cases b <;> cases c <;> decide

theorem evolves_canceled : ∀ x : TState,
    evolves TState.canceled x = true → x = TState.canceled := by
  intro x
  cases x <;> decide

theorem TEvol_refl (ts : List Timer) : TEvol ts ts :=
  fun _ t h => ⟨t, h, rfl, rfl, evolves_refl _⟩

theorem TEvol_of_eq {ts ts' : List Timer} (h : ts = ts') : TEvol ts ts' :=
  h ▸ TEvol_refl ts

theorem TEvol_trans {a b c : List Timer} (h1 : TEvol a b) (h2 : TEvol b c) :
    TEvol a c := by
  intro i t hi
  obtain ⟨u, hu, hd, he, hv⟩ := h1 i t hi
  obtain ⟨v, hv', hd', he', hv2⟩ := h2 i u hu
  exact ⟨v, hv', hd'.trans hd, he'.trans he, evolves_trans _ _ _ hv hv2⟩

theorem prefix_tevol {ts ts' : List Timer} (h : ts <+: ts') : TEvol ts ts' := by
  obtain ⟨more, rfl⟩ := h
  intro i t hi
  have hlt : i < ts.length := by
    by_contra hle
    rw [List.getElem?_eq_none (Nat.le_of_not_lt hle)] at hi
    cases hi
  refine ⟨t, ?_, rfl, rfl, evolves_refl _⟩
  rw [List.getElem?_append, if_pos hlt]
  exact hi

theorem TEvol_cancelAt (i : Nat) (ts : List Timer) : TEvol ts (cancelAt i ts) := by
  intro j t hj
  by_cases hij : i = j
  · subst hij
    rw [cancelAt, getElem?_mapAt_self, hj]
    refine ⟨cancelOne t, rfl, rfl, rfl, ?_⟩
    cases h : t.tstate <;> simp [cancelOne, h, evolves]
  · rw [cancelAt, getElem?_mapAt_ne i j _ _ hij, hj]
    exact ⟨t, rfl, rfl, rfl, evolves_refl _⟩

theorem TEvol_setAt {i : Nat} {ts : List Timer} {t : Timer} (st : TState)
    (h : ts[i]? = some t) (he : evolves t.tstate st = true) :
    TEvol ts (mapAt i (fun u => { u with tstate := st }) ts) := by
  intro j u hj
  by_cases hij : i = j
  · subst hij
    rw [getElem?_mapAt_self, hj]
    have : u = t := by rw [h] at hj; cases hj; rfl
    subst this
    exact ⟨{ u with tstate := st }, rfl, rfl, rfl, he⟩
  · rw [getElem?_mapAt_ne i j _ _ hij, hj]
    exact ⟨u, rfl, rfl, rfl, evolves_refl _⟩

theorem foldl_tevol {α : Type} (f : St → α → St) (l : List α)
    (h : ∀ s a, a ∈ l → TEvol s.timers (f s a).timers) (s : St) :
    TEvol s.timers (l.foldl f s).timers := by
  induction l generalizing s with
  | nil => exact TEvol_refl _
  | cons x xs ih =>
    exact TEvol_trans (h s x (List.mem_cons_self x xs))
      (ih (fun s a ha => h s a (List.mem_cons_of_mem x ha)) (f s x))

theorem runCancel_tevol (c : Canceler) (s : St) :
    TEvol s.timers (runCancel c s).timers := by
  cases c with
  | timer i => exact TEvol_cancelAt i s.timers
  | removeSocketTimeoutListener => exact TEvol_refl _

theorem cancelTimeouts_tevol (s : St) : TEvol s.timers (cancelTimeouts s).timers := by
  unfold cancelTimeouts unhandleAll
  exact foldl_tevol _ s.cancelers (fun s c _ => runCancel_tevol c s) s

theorem addL_timers (l : Listener) (s : St) : (addL l s).timers = s.timers := rfl

theorem addTimeout_extends (d : Nat) (ev : String) (s : St) :
    s.timers <+: ((addTimeout d ev s).2).timers :=
  ⟨_, rfl⟩

theorem lookupPart_extends (ctx : Ctx) (a : Bool) (s : St) :
    s.timers <+: (lookupPart ctx a s).timers := by
  unfold lookupPart
  cases ctx.delays.lookup with
  | none => exact List.prefix_refl _
  | some d =>
    dsimp only
    split
    · exact ⟨_, rfl⟩
    · exact List.prefix_refl _

theorem connectPart_extends (ctx : Ctx) (s : St) :
    s.timers <+: (connectPart ctx s).timers := by
  unfold connectPart
  cases ctx.delays.connect with
  | none => exact List.prefix_refl _
  | some d =>
    dsimp only
    split
    · exact ⟨_, rfl⟩
    · exact List.prefix_refl _

theorem securePart_extends (ctx : Ctx) (s : St) :
    s.timers <+: (securePart ctx s).timers := by
  unfold securePart
  split
  · exact List.prefix_refl _
  · exact List.prefix_refl _

theorem sendPart_extends (ctx : Ctx) (c : Bool) (s : St) :
    s.timers <+: (sendPart ctx c s).timers := by
  unfold sendPart
  cases ctx.delays.send with
  | none => exact List.prefix_refl _
  | some d =>
    dsimp only
    split
    · exact List.prefix_refl _
    · exact ⟨_, rfl⟩

theorem socketBody_extends (ctx : Ctx) (c a : Bool) (s : St) :
    s.timers <+: (socketBody ctx c a s).timers := by
  unfold socketBody
  cases c with
  | true =>
    exact (((lookupPart_extends ctx a s).trans
      (connectPart_extends ctx _)).trans
      (securePart_extends ctx _)).trans (sendPart_extends ctx true _)
  | false => exact sendPart_extends ctx false s

theorem emitWith_tevol (run : Handler → EvData → St → St)
    (hrun : ∀ h d s, TEvol s.timers (run h d s).timers)
    (tgt : Emitter) (ev : String) (d : EvData) (s : St) :
    TEvol s.timers (emitWith run tgt ev d s).timers := by
  unfold emitWith
  exact foldl_tevol (fun acc (l : Listener) => run l.h d acc)
    (s.listeners.filter fun l => decide (l.target = tgt) && decide (l.ev = ev))
    (fun s l _ => hrun l.h d s)
    { s with listeners := s.listeners.filter fun l =>
        !(decide (l.target = tgt) && decide (l.ev = ev) && l.isOnce) }

theorem timeoutHandlerGo_tevol (run : Handler → EvData → St → St)
    (hrun : ∀ h d s, TEvol s.timers (run h d s).timers)
    (dl : Nat) (ev : String) (s : St) :
    TEvol s.timers (timeoutHandlerGo run dl ev s).timers := by
  show TEvol s.timers
    (emitWith run Emitter.request ("error") (EvData.err (TimeoutError dl ev))
      { s with emitted := s.emitted ++ [TimeoutError dl ev] }).timers
  exact emitWith_tevol run hrun Emitter.request ("error")
    (EvData.err (TimeoutError dl ev)) { s with emitted := s.emitted ++ [TimeoutError dl ev] }

theorem runHandlerD_tevol (n : Nat) (ctx : Ctx) (h : Handler) (d : EvData) (s : St) :
    TEvol s.timers (runHandlerD n ctx h d s).timers := by
  induction n generalizing h d s with
  | zero => exact TEvol_refl _
  | succ n ih =>
    cases h with
    | errorListener =>
      cases d with
      | err e =>
        rw [runHandlerD]
        split
        · exact TEvol_refl _
        · exact cancelTimeouts_tevol s
      | unit => exact TEvol_refl _
      | lookupRes e => exact TEvol_refl _
      | socketInfo c a => exact TEvol_refl _
      | response => exact TEvol_refl _
    | responseListener => cases d <;> exact TEvol_refl _
    | endListener => cases d <;> exact cancelTimeouts_tevol s
    | socketListener =>
      cases d with
      | socketInfo c a => exact prefix_tevol (socketBody_extends ctx c a s)
      | unit => exact TEvol_refl _
      | err e => exact TEvol_refl _
      | lookupRes e => exact TEvol_refl _
      | response => exact TEvol_refl _
    | timerCancel i => cases d <;> exact TEvol_cancelAt i s.timers
    | connectLookupListener =>
      cases d with
      | lookupRes e =>
        cases e with
        | none =>
          rw [runHandlerD]
          cases ctx.delays.connect with
          | some dl => exact prefix_tevol ⟨_, rfl⟩
          | none => exact TEvol_refl _
        | some e0 => exact TEvol_refl _
      | unit => exact TEvol_refl _
      | err e => exact TEvol_refl _
      | socketInfo c a => exact TEvol_refl _
      | response => exact TEvol_refl _
    | secureConnectConnectListener =>
      cases d <;>
        · rw [runHandlerD]
          cases ctx.delays.secureConnect with
          | some dl => exact prefix_tevol ⟨_, rfl⟩
          | none => exact TEvol_refl _
    | sendConnectListener =>
      cases d <;>
        · rw [runHandlerD]
          cases ctx.delays.send with
          | some dl => exact prefix_tevol ⟨_, rfl⟩
          | none => exact TEvol_refl _
    | responseUploadListener =>
      cases d <;>
        · rw [runHandlerD]
          cases ctx.delays.response with
          | some dl => exact prefix_tevol ⟨_, rfl⟩
          | none => exact TEvol_refl _
    | socketTimeoutHandler =>
      cases d <;>
        · rw [runHandlerD]
          cases ctx.delays.socket with
          | some dl =>
            exact timeoutHandlerGo_tevol _ (fun h d s => ih h d s) dl _ s
          | none => exact TEvol_refl _
    | foreign k => cases d <;> exact TEvol_refl _

theorem emitEvent_tevol (ctx : Ctx) (tgt : Emitter) (ev : String) (d : EvData) (s : St) :
    TEvol s.timers (emitEvent ctx tgt ev d s).timers :=
  emitWith_tevol _ (fun h d s => runHandlerD_tevol fuelF ctx h d s) tgt ev d s

theorem step_tevol (ctx : Ctx) (a : Step) (s : St) :
    TEvol s.timers (step ctx a s).timers := by
  cases a with
  | fireTimeout i =>
    rw [step]
    cases hi : s.timers[i]? with
    | some t =>
      dsimp only
      split
      · next hw => exact TEvol_setAt TState.deferred hi (by rw [hw]; rfl)
      · exact TEvol_refl _
    | none => exact TEvol_refl _
  | runImmediate i =>
    rw [step]
    cases hi : s.timers[i]? with
    | some t =>
      dsimp only
      split
      · next hw =>
        refine TEvol_trans (TEvol_setAt TState.done hi (by rw [hw]; rfl)) ?_
        exact timeoutHandlerGo_tevol _ (fun h d s => runHandlerD_tevol fuelF ctx h d s)
          t.delay t.event
          { s with timers := mapAt i (fun u => { u with tstate := TState.done }) s.timers }
      · exact TEvol_refl _
    | none => exact TEvol_refl _
  | emitReqError e => exact emitEvent_tevol ctx _ _ _ s
  | emitResponse => exact emitEvent_tevol ctx _ _ _ s
  | emitResponseEnd => exact emitEvent_tevol ctx _ _ _ s
  | emitSocket c a => exact emitEvent_tevol ctx _ _ _ s
  | emitLookup e => exact emitEvent_tevol ctx _ _ _ s
  | emitConnect => exact emitEvent_tevol ctx _ _ _ s
  | emitSecureConnect => exact emitEvent_tevol ctx _ _ _ s
  | emitUploadComplete => exact emitEvent_tevol ctx _ _ _ s
  | emitNativeTimeout => exact emitEvent_tevol ctx _ _ _ s
  | callCancelAll => exact cancelTimeouts_tevol s
  | addForeign tgt ev k => exact TEvol_refl _

theorem run_tevol (ctx : Ctx) (l : List Step) (s : St) :
    TEvol s.timers (run ctx l s).timers := by
  unfold run
  exact foldl_tevol _ l (fun s a _ => step_tevol ctx a s) s

theorem phaseDelay_lookup (ctx : Ctx) : phaseDelay ctx ("lookup") = ctx.delays.lookup := rfl

theorem phaseDelay_connect (ctx : Ctx) : phaseDelay ctx ("connect") = ctx.delays.connect := rfl

theorem phaseDelay_secureConnect (ctx : Ctx) :
    phaseDelay ctx ("secureConnect") = ctx.delays.secureConnect := rfl

theorem phaseDelay_socket (ctx : Ctx) : phaseDelay ctx ("socket") = ctx.delays.socket := rfl

theorem phaseDelay_send (ctx : Ctx) : phaseDelay ctx ("send") = ctx.delays.send := rfl

theorem phaseDelay_response (ctx : Ctx) : phaseDelay ctx ("response") = ctx.delays.response := rfl

theorem phaseDelay_request (ctx : Ctx) : phaseDelay ctx ("request") = ctx.delays.request := rfl

theorem Inv_transfer {ctx : Ctx} {s s' : St} (h : Inv ctx s)
    (ht : s'.timers = s.timers) (hl : s'.listeners = s.listeners)
    (hc : s'.cancelers = s.cancelers) (hr : s'.reentry = s.reentry) : Inv ctx s' :=
  ⟨by rw [ht, hc]; exact h.cov, by rw [ht]; exact h.cfg, by rw [hl]; exact h.good,
   by rw [hl]; exact h.errL, by rw [hl, hc]; exact h.sockCov, by rw [hr]; exact h.reent⟩

theorem addL_inv {ctx : Ctx} {s : St} (hInv : Inv ctx s) (l : Listener)
    (hg : goodListener l = true) (hns : l.h ≠ Handler.socketTimeoutHandler) :
    Inv ctx (addL l s) := by
  refine ⟨hInv.cov, hInv.cfg, ?_, ?_, ?_, hInv.reent⟩
  · intro x hx
    rcases List.mem_append.mp hx with h | h
    · exact hInv.good x h
    · rw [List.mem_singleton.mp h]
      exact hg
  · exact List.mem_append.mpr (Or.inl hInv.errL)
  · intro x hx hxh
    rcases List.mem_append.mp hx with h | h
    · exact hInv.sockCov x h hxh
    · rw [List.mem_singleton.mp h] at hxh
      exact absurd hxh hns

theorem filter_inv_listeners {ctx : Ctx} {s : St} (hInv : Inv ctx s) (p : Listener → Bool)
    (hp : p errListener = true) : Inv ctx { s with listeners := s.listeners.filter p } := by
  refine ⟨hInv.cov, hInv.cfg, ?_, ?_, ?_, hInv.reent⟩
  · intro x hx
    exact hInv.good x (List.mem_of_mem_filter hx)
  · exact List.mem_filter.mpr ⟨hInv.errL, hp⟩
  · intro x hx hxh
    exact hInv.sockCov x (List.mem_of_mem_filter hx) hxh

theorem cancelAt_inv {ctx : Ctx} {s : St} (hInv : Inv ctx s) (i : Nat) :
    Inv ctx { s with timers := cancelAt i s.timers } := by
  refine ⟨?_, ?_, hInv.good, hInv.errL, hInv.sockCov, hInv.reent⟩
  · intro j hj
    rw [cancelAt, mapAt_length] at hj
    exact hInv.cov j hj
  · intro t ht
    rcases mem_mapAt i cancelOne s.timers t ht with h | ⟨u, hu, rfl⟩
    · exact hInv.cfg t h
    · simpa [cancelOne] using hInv.cfg u hu

theorem runCancel_inv {ctx : Ctx} (c : Canceler) {s : St} (hInv : Inv ctx s) :
    Inv ctx (runCancel c s) := by
  cases c with
  | timer i => exact cancelAt_inv hInv i
  | removeSocketTimeoutListener =>
    exact filter_inv_listeners hInv _ (by decide)

theorem unhandleAll_inv {ctx : Ctx} {s : St} (hInv : Inv ctx s) :
    Inv ctx (unhandleAll s) :=
  filter_inv_listeners hInv _ (by decide)

theorem cancelTimeouts_inv {ctx : Ctx} {s : St} (hInv : Inv ctx s) :
    Inv ctx (cancelTimeouts s) := by
  unfold cancelTimeouts
  exact unhandleAll_inv
    (foldl_pres (Inv ctx) _ s.cancelers s hInv fun u c _ h => runCancel_inv c h)

theorem addTimeout_inv {ctx : Ctx} {s : St} (hInv : Inv ctx s) (d : Nat) (ev : String)
    (hcfg : phaseDelay ctx ev = some d) : Inv ctx (addTimeout d ev s).2 := by
  refine ⟨?_, ?_, hInv.good, hInv.errL, ?_, hInv.reent⟩
  · intro i hi
    simp only [addTimeout, List.length_append, List.length_cons, List.length_nil] at hi
    rcases Nat.lt_succ_iff_lt_or_eq.mp hi with h | h
    · exact List.mem_append.mpr (Or.inl (hInv.cov i h))
    · subst h
      exact List.mem_append.mpr (Or.inr (by simp))
  · intro t ht
    rcases List.mem_append.mp ht with h | h
    · exact hInv.cfg t h
    · rw [List.mem_singleton.mp h]
      exact hcfg
  · intro l hl hlh
    obtain ⟨h1, h2⟩ := hInv.sockCov l hl hlh
    exact ⟨List.mem_append.mpr (Or.inl h1), h2⟩

theorem lookupPart_inv {ctx : Ctx} {s : St} (hInv : Inv ctx s) (a : Bool) :
    Inv ctx (lookupPart ctx a s) := by
  unfold lookupPart
  cases hl : ctx.delays.lookup with
  | none => exact hInv
  | some d =>
    dsimp only
    split
    · exact addL_inv (addTimeout_inv hInv d ("lookup") ((phaseDelay_lookup ctx).trans hl))
        _ rfl (fun h => nomatch h)
    · exact hInv

theorem connectPart_inv {ctx : Ctx} {s : St} (hInv : Inv ctx s) :
    Inv ctx (connectPart ctx s) := by
  unfold connectPart
  cases hc : ctx.delays.connect with
  | none => exact hInv
  | some d =>
    dsimp only
    split
    · exact addL_inv (addTimeout_inv hInv d ("connect") ((phaseDelay_connect ctx).trans hc))
        _ rfl (fun h => nomatch h)
    · exact addL_inv hInv _ rfl (fun h => nomatch h)

theorem securePart_inv {ctx : Ctx} {s : St} (hInv : Inv ctx s) :
    Inv ctx (securePart ctx s) := by
  unfold securePart
  split
  · exact addL_inv hInv _ rfl (fun h => nomatch h)
  · exact hInv

theorem sendPart_inv {ctx : Ctx} {s : St} (hInv : Inv ctx s) (c : Bool) :
    Inv ctx (sendPart ctx c s) := by
  unfold sendPart
  cases hs : ctx.delays.send with
  | none => exact hInv
  | some d =>
    dsimp only
    split
    · exact addL_inv hInv _ rfl (fun h => nomatch h)
    · exact addL_inv (addTimeout_inv hInv d ("send") ((phaseDelay_send ctx).trans hs))
        _ rfl (fun h => nomatch h)

theorem socketBody_inv {ctx : Ctx} {s : St} (hInv : Inv ctx s) (c a : Bool) :
    Inv ctx (socketBody ctx c a s) := by
  unfold socketBody
  cases c with
  | true => exact sendPart_inv (securePart_inv (connectPart_inv (lookupPart_inv hInv a))) true
  | false => exact sendPart_inv hInv false

theorem emitWith_inv {ctx : Ctx} (run : Handler → EvData → St → St)
    (hrun : ∀ h d s, Inv ctx s → Inv ctx (run h d s))
    (tgt : Emitter) (ev : String) (d : EvData) {s : St} (hInv : Inv ctx s) :
    Inv ctx (emitWith run tgt ev d s) := by
  unfold emitWith
  refine foldl_pres (Inv ctx) _ _ _ ?_ (fun u l _ h => hrun l.h d u h)
  exact filter_inv_listeners hInv _ (by simp [errListener])

theorem timeoutHandlerGo_inv {ctx : Ctx} (run : Handler → EvData → St → St)
    (hrun : ∀ h d s, Inv ctx s → Inv ctx (run h d s))
    (dl : Nat) (ev : String) {s : St} (hInv : Inv ctx s) :
    Inv ctx (timeoutHandlerGo run dl ev s) := by
  refine Inv_transfer (s := emitWith run Emitter.request ("error") (EvData.err (TimeoutError dl ev))
    { s with emitted := s.emitted ++ [TimeoutError dl ev] }) ?_ rfl rfl rfl rfl
  exact emitWith_inv run hrun Emitter.request ("error") (EvData.err (TimeoutError dl ev))
    (Inv_transfer hInv rfl rfl rfl rfl)

theorem runHandlerD_inv (n : Nat) (ctx : Ctx) (h : Handler) (d : EvData) {s : St}
    (hInv : Inv ctx s) : Inv ctx (runHandlerD n ctx h d s) := by
  induction n generalizing h d s with
  | zero => exact hInv
  | succ n ih =>
    cases h with
    | errorListener =>
      cases d with
      | err e =>
        rw [runHandlerD]
        split
        · exact hInv
        · exact cancelTimeouts_inv hInv
      | unit => exact hInv
      | lookupRes e => exact hInv
      | socketInfo c a => exact hInv
      | response => exact hInv
    | responseListener =>
      cases d <;> exact addL_inv hInv _ rfl (fun h => nomatch h)
    | endListener => cases d <;> exact cancelTimeouts_inv hInv
    | socketListener =>
      cases d with
      | socketInfo c a => exact socketBody_inv hInv c a
      | unit => exact hInv
      | err e => exact hInv
      | lookupRes e => exact hInv
      | response => exact hInv
    | timerCancel i => cases d <;> exact cancelAt_inv hInv i
    | connectLookupListener =>
      cases d with
      | lookupRes e =>
        cases e with
        | none =>
          rw [runHandlerD]
          cases hc : ctx.delays.connect with
          | some dl =>
            exact addL_inv (addTimeout_inv hInv dl ("connect") ((phaseDelay_connect ctx).trans hc))
              _ rfl (fun h => nomatch h)
          | none => exact hInv
        | some e0 => exact hInv
      | unit => exact hInv
      | err e => exact hInv
      | socketInfo c a => exact hInv
      | response => exact hInv
    | secureConnectConnectListener =>
      cases d <;>
        · rw [runHandlerD]
          cases hc : ctx.delays.secureConnect with
          | some dl =>
            exact addL_inv
              (addTimeout_inv hInv dl ("secureConnect") ((phaseDelay_secureConnect ctx).trans hc))
              _ rfl (fun h => nomatch h)
          | none => exact hInv
    | sendConnectListener =>
      cases d <;>
        · rw [runHandlerD]
          cases hc : ctx.delays.send with
          | some dl =>
            exact addL_inv (addTimeout_inv hInv dl ("send") ((phaseDelay_send ctx).trans hc))
              _ rfl (fun h => nomatch h)
          | none => exact hInv
    | responseUploadListener =>
      cases d <;>
        · rw [runHandlerD]
          cases hc : ctx.delays.response with
          | some dl =>
            exact addL_inv (addTimeout_inv hInv dl ("response") ((phaseDelay_response ctx).trans hc))
              _ rfl (fun h => nomatch h)
          | none => exact hInv
    | socketTimeoutHandler =>
      cases d <;>
        · rw [runHandlerD]
          cases hc : ctx.delays.socket with
          | some dl => exact timeoutHandlerGo_inv _ (fun h d s hs => ih h d hs) dl _ hInv
          | none => exact hInv
    | foreign k => cases d <;> exact hInv

theorem emitEvent_inv {ctx : Ctx} (tgt : Emitter) (ev : String) (d : EvData) {s : St}
    (hInv : Inv ctx s) : Inv ctx (emitEvent ctx tgt ev d s) :=
  emitWith_inv _ (fun h d _ hs => runHandlerD_inv fuelF ctx h d hs) tgt ev d hInv

theorem mapAt_tstate_inv {ctx : Ctx} {s : St} (hInv : Inv ctx s) (i : Nat) (st : TState) :
    Inv ctx { s with timers := mapAt i (fun u => { u with tstate := st }) s.timers } := by
  refine ⟨?_, ?_, hInv.good, hInv.errL, hInv.sockCov, hInv.reent⟩
  · intro j hj
    rw [mapAt_length] at hj
    exact hInv.cov j hj
  · intro t ht
    rcases mem_mapAt i _ s.timers t ht with h | ⟨u, hu, rfl⟩
    · exact hInv.cfg t h
    · simpa using hInv.cfg u hu

theorem step_inv {ctx : Ctx} (a : Step) {s : St} (hInv : Inv ctx s) :
    Inv ctx (step ctx a s) := by
  cases a with
  | fireTimeout i =>
    rw [step]
    cases hi : s.timers[i]? with
    | some t =>
      dsimp only
      split
      · exact mapAt_tstate_inv hInv i TState.deferred
      · exact hInv
    | none => exact hInv
  | runImmediate i =>
    rw [step]
    cases hi : s.timers[i]? with
    | some t =>
      dsimp only
      split
      · exact timeoutHandlerGo_inv _ (fun h d _ hs => runHandlerD_inv fuelF ctx h d hs)
          t.delay t.event (mapAt_tstate_inv hInv i TState.done)
      · exact hInv
    | none => exact hInv
  | emitReqError e => exact emitEvent_inv _ _ _ hInv
  | emitResponse => exact emitEvent_inv _ _ _ hInv
  | emitResponseEnd => exact emitEvent_inv _ _ _ hInv
  | emitSocket c a => exact emitEvent_inv _ _ _ hInv
  | emitLookup e => exact emitEvent_inv _ _ _ hInv
  | emitConnect => exact emitEvent_inv _ _ _ hInv
  | emitSecureConnect => exact emitEvent_inv _ _ _ hInv
  | emitUploadComplete => exact emitEvent_inv _ _ _ hInv
  | emitNativeTimeout => exact emitEvent_inv _ _ _ hInv
  | callCancelAll => exact cancelTimeouts_inv hInv
  | addForeign tgt ev k =>
    refine ⟨hInv.cov, hInv.cfg, ?_, ?_, ?_, hInv.reent⟩
    · intro x hx
      rcases List.mem_append.mp hx with h | h
      · exact hInv.good x h
      · rw [List.mem_singleton.mp h]
        rfl
    · exact List.mem_append.mpr (Or.inl hInv.errL)
    · intro x hx hxh
      rcases List.mem_append.mp hx with h | h
      · exact hInv.sockCov x h hxh
      · rw [List.mem_singleton.mp h] at hxh
        exact absurd hxh (fun h => nomatch h)

theorem attachBase_init_inv (ctx : Ctx) : Inv ctx (attachBase initSt) := by
  refine ⟨?_, ?_, ?_, ?_, ?_, rfl⟩
  · intro i hi
    simp [attachBase, addL, initSt] at hi
  · intro t ht
    simp [attachBase, addL, initSt] at ht
  · intro l hl
    simp only [attachBase, addL, initSt, List.nil_append, List.cons_append, List.mem_cons,
      List.mem_singleton, List.not_mem_nil] at hl
    rcases hl with rfl | hl
    · rfl
    · rcases hl with rfl | hl
      · rfl
      · simp at hl
  · simp [attachBase, addL, initSt, errListener]
  · intro l hl hlh
    simp only [attachBase, addL, initSt, List.nil_append, List.cons_append, List.mem_cons,
      List.mem_singleton, List.not_mem_nil] at hl
    rcases hl with rfl | hl
    · exact absurd hlh (fun h => nomatch h)
    · rcases hl with rfl | hl
      · exact absurd hlh (fun h => nomatch h)
      · simp at hl

theorem requestPart_inv {ctx : Ctx} {s : St} (hInv : Inv ctx s) :
    Inv ctx (requestPart ctx s) := by
  unfold requestPart
  cases hr : ctx.delays.request with
  | none => exact hInv
  | some d => exact addTimeout_inv hInv d ("request") ((phaseDelay_request ctx).trans hr)

theorem sockTimeoutPart_inv {ctx : Ctx} {s : St} (hInv : Inv ctx s) :
    Inv ctx (sockTimeoutPart ctx s) := by
  unfold sockTimeoutPart
  cases hc : ctx.delays.socket with
  | none => exact hInv
  | some d =>
    dsimp only
    refine ⟨?_, hInv.cfg, ?_, ?_, ?_, hInv.reent⟩
    · intro i hi
      exact List.mem_append.mpr (Or.inl (hInv.cov i hi))
    · intro x hx
      rcases List.mem_append.mp hx with h | h
      · exact hInv.good x h
      · rw [List.mem_singleton.mp h]
        rfl
    · exact List.mem_append.mpr (Or.inl hInv.errL)
    · intro x hx hxh
      rcases List.mem_append.mp hx with h | h
      · obtain ⟨h1, h2⟩ := hInv.sockCov x h hxh
        exact ⟨List.mem_append.mpr (Or.inl h1), h2⟩
      · exact ⟨List.mem_append.mpr (Or.inr (by simp)), by rw [hc]; rfl⟩

theorem responsePart_inv {ctx : Ctx} {s : St} (hInv : Inv ctx s) :
    Inv ctx (responsePart ctx s) := by
  unfold responsePart
  cases hr : ctx.delays.response with
  | none => exact hInv
  | some d => exact addL_inv hInv _ rfl (fun h => nomatch h)

theorem attach_inv (ctx : Ctx) : Inv ctx (attachTo ctx initSt).2 := by
  unfold attachTo
  rw [if_neg (by simp [initSt])]
  exact responsePart_inv
    (addL_inv (sockTimeoutPart_inv (requestPart_inv (attachBase_init_inv ctx)))
      _ rfl (fun h => nomatch h))

theorem reachable_inv {ctx : Ctx} {s : St} (h : Reachable ctx s) : Inv ctx s := by
  induction h with
  | base => exact attach_inv ctx
  | next a _ ih => exact step_inv a ih

theorem mem_of_getElem?' {α : Type} {l : List α} {i : Nat} {a : α}
    (h : l[i]? = some a) : a ∈ l := by
  induction l generalizing i with
  | nil => cases i <;> cases h
  | cons x xs ih =>
    cases i with
    | zero =>
      rw [List.getElem?_cons_zero] at h
      cases h
      exact List.mem_cons_self _ _
    | succ n =>
      rw [List.getElem?_cons_succ] at h
      exact List.mem_cons_of_mem x (ih h)

theorem getElem?_of_mem' {α : Type} {l : List α} {a : α}
    (h : a ∈ l) : ∃ i : Nat, l[i]? = some a := by
  induction l with
  | nil => cases h
  | cons x xs ih =>
    rcases List.mem_cons.mp h with rfl | h
    · exact ⟨0, by simp⟩
    · obtain ⟨i, hi⟩ := ih h
      exact ⟨i + 1, by rw [List.getElem?_cons_succ]; exact hi⟩

theorem getElem?_some_lt {α : Type} {l : List α} {i : Nat} {a : α}
    (h : l[i]? = some a) : i < l.length := by
  by_contra hle
  rw [List.getElem?_eq_none (Nat.le_of_not_lt hle)] at h
  cases h

theorem deadT_cancelOne (t : Timer) : deadT (cancelOne t) = true := by
  cases t with
  | mk d e st => cases st <;> rfl

theorem deadT_not_waiting {t : Timer} (h : deadT t = true) : ¬ t.tstate = TState.waiting := by
  cases t with
  | mk d e st => cases st <;> simp [deadT] at h ⊢

theorem deadT_not_deferred {t : Timer} (h : deadT t = true) : ¬ t.tstate = TState.deferred := by
  cases t with
  | mk d e st => cases st <;> simp [deadT] at h ⊢

theorem evolves_dead {t u : Timer} (hd : deadT t = true)
    (he : evolves t.tstate u.tstate = true) : deadT u = true := by
  cases t with
  | mk d e st =>
    cases u with
    | mk d' e' st' =>
      cases st <;> cases st' <;> simp [deadT, evolves] at hd he ⊢

theorem runCancel_timers_length (c : Canceler) (u : St) :
    (runCancel c u).timers.length = u.timers.length := by
  cases c with
  | timer i => exact mapAt_length i cancelOne u.timers
  | removeSocketTimeoutListener => rfl

theorem cancelTimeouts_timers_length (s : St) :
    (cancelTimeouts s).timers.length = s.timers.length := by
  unfold cancelTimeouts unhandleAll
  exact foldl_pres (fun u => u.timers.length = s.timers.length) _ s.cancelers s rfl
    fun u c _ h => (runCancel_timers_length c u).trans h

theorem runCancel_listeners_subset (c : Canceler) (u : St) :
    ∀ l ∈ (runCancel c u).listeners, l ∈ u.listeners := by
  cases c with
  | timer i => exact fun l hl => hl
  | removeSocketTimeoutListener => exact fun l hl => List.mem_of_mem_filter hl

theorem cancelTimeouts_listeners_subset (s : St) :
    ∀ l ∈ (cancelTimeouts s).listeners, l ∈ s.listeners := by
  unfold cancelTimeouts unhandleAll
  intro l hl
  have h1 := List.mem_of_mem_filter hl
  exact foldl_pres (fun u => ∀ l ∈ u.listeners, l ∈ s.listeners) _ s.cancelers s
    (fun l hl => hl)
    (fun u c _ hme l hl => hme l (runCancel_listeners_subset c u l hl)) l h1

theorem fold_cancels_dead (s : St) (i : Nat) (hc : Canceler.timer i ∈ s.cancelers) :
    ∀ t, ((s.cancelers.foldl (fun u c => runCancel c u) s).timers)[i]? = some t →
      deadT t = true := by
  refine foldl_estab2 (fun _ => True)
    (fun u => ∀ t, u.timers[i]? = some t → deadT t = true)
    (fun u c => runCancel c u) s.cancelers (Canceler.timer i) hc
    (fun _ _ _ _ => trivial) ?_ ?_ s trivial
  · intro u _
    intro t ht
    simp only [runCancel] at ht
    rw [cancelAt, getElem?_mapAt_self] at ht
    cases hu : u.timers[i]? with
    | some t0 =>
      rw [hu] at ht
      cases ht
      exact deadT_cancelOne t0
    | none => rw [hu] at ht; cases ht
  · intro u c _ hQ t ht
    cases c with
    | timer j =>
      simp only [runCancel] at ht
      by_cases hij : j = i
      · subst hij
        rw [cancelAt, getElem?_mapAt_self] at ht
        cases hu : u.timers[j]? with
        | some t0 =>
          rw [hu] at ht
          cases ht
          exact deadT_cancelOne t0
        | none => rw [hu] at ht; cases ht
      · rw [cancelAt, getElem?_mapAt_ne j i _ _ hij] at ht
        exact hQ t ht
    | removeSocketTimeoutListener => exact hQ t ht

theorem cancelTimeouts_dead {ctx : Ctx} {s : St} (hInv : Inv ctx s) :
    ∀ t ∈ (cancelTimeouts s).timers, deadT t = true := by
  intro t ht
  obtain ⟨i, hi⟩ := getElem?_of_mem' ht
  have hlt : i < s.timers.length := by
    have := getElem?_some_lt hi
    rwa [cancelTimeouts_timers_length s] at this
  exact fold_cancels_dead s i (hInv.cov i hlt) t hi

theorem fold_nosock (s : St)
    (h : Canceler.removeSocketTimeoutListener ∈ s.cancelers ∨
         ∀ l ∈ s.listeners,
           ¬(l.target = Emitter.request ∧ l.ev = "timeout" ∧ l.h = Handler.socketTimeoutHandler)) :
    ∀ l ∈ (s.cancelers.foldl (fun u c => runCancel c u) s).listeners,
      ¬(l.target = Emitter.request ∧ l.ev = "timeout" ∧ l.h = Handler.socketTimeoutHandler) := by
  rcases h with hmem | hns
  · refine foldl_estab2 (fun _ => True)
      (fun u => ∀ l ∈ u.listeners,
        ¬(l.target = Emitter.request ∧ l.ev = "timeout" ∧ l.h = Handler.socketTimeoutHandler))
      (fun u c => runCancel c u) s.cancelers Canceler.removeSocketTimeoutListener hmem
      (fun _ _ _ _ => trivial) ?_ ?_ s trivial
    · intro u _ l hl
      have := (List.mem_filter.mp hl).2
      simp only [Bool.not_eq_eq_eq_not, Bool.not_true, Bool.and_eq_false_imp] at this
      intro ⟨h1, h2, h3⟩
      simp [h1, h2, h3] at this
    · intro u c _ hQ l hl
      exact hQ l (runCancel_listeners_subset c u l hl)
  · refine foldl_pres (fun u => ∀ l ∈ u.listeners,
      ¬(l.target = Emitter.request ∧ l.ev = "timeout" ∧ l.h = Handler.socketTimeoutHandler))
      _ s.cancelers s hns ?_
    intro u c _ hQ l hl
    exact hQ l (runCancel_listeners_subset c u l hl)

theorem goodListener_sock {l : Listener} (hg : goodListener l = true)
    (hh : l.h = Handler.socketTimeoutHandler) :
    l.target = Emitter.request ∧ l.ev = "timeout" := by
  cases l with
  | mk tgt ev h o tr =>
    subst hh
    simp only [goodListener, Bool.and_eq_true, decide_eq_true_eq] at hg
    exact ⟨hg.1.1.1, hg.1.1.2⟩

theorem goodListener_tracked {l : Listener} (hg : goodListener l = true)
    (hp : plainHandler l.h = false) (hh : l.h ≠ Handler.socketTimeoutHandler) :
    l.tracked = true := by
  cases l with
  | mk tgt ev h o tr =>
    cases h with
    | errorListener => simp [plainHandler] at hp
    | foreign k => simp [plainHandler] at hp
    | socketTimeoutHandler => exact absurd rfl hh
    | responseListener =>
      simp only [goodListener, Bool.and_eq_true] at hg
      exact hg.1.2
    | endListener =>
      simp only [goodListener, Bool.and_eq_true] at hg
      exact hg.1.2
    | socketListener =>
      simp only [goodListener, Bool.and_eq_true] at hg
      exact hg.1.2
    | timerCancel i =>
      simp only [goodListener, Bool.and_eq_true] at hg
      exact hg.1.2
    | connectLookupListener =>
      simp only [goodListener, Bool.and_eq_true] at hg
      exact hg.1.2
    | secureConnectConnectListener =>
      simp only [goodListener, Bool.and_eq_true] at hg
      exact hg.1.2
    | sendConnectListener =>
      simp only [goodListener, Bool.and_eq_true] at hg
      exact hg.1.2
    | responseUploadListener =>
      simp only [goodListener, Bool.and_eq_true] at hg
      exact hg.1.2

theorem cancelTimeouts_detached {ctx : Ctx} {s : St} (hInv : Inv ctx s) :
    Detached (cancelTimeouts s) := by
  constructor
  · exact cancelTimeouts_dead hInv
  · intro l hl
    have hmem1 : l ∈ (s.cancelers.foldl (fun u c => runCancel c u) s).listeners :=
      List.mem_of_mem_filter hl
    have htr : l.tracked = false := by
      have := (List.mem_filter.mp hl).2
      simpa using this
    have hsub : l ∈ s.listeners := cancelTimeouts_listeners_subset s l hl
    have hgood := hInv.good l hsub
    by_cases hp : plainHandler l.h = true
    · exact hp
    · have hp' : plainHandler l.h = false := by
        cases hq : plainHandler l.h
        · rfl
        · exact absurd hq hp
      by_cases hh : l.h = Handler.socketTimeoutHandler
      · obtain ⟨ht, he⟩ := goodListener_sock hgood hh
        obtain ⟨hcv, _⟩ := hInv.sockCov l hsub hh
        exact absurd ⟨ht, he, hh⟩ (fold_nosock s (Or.inl hcv) l hmem1)
      · have := goodListener_tracked hgood hp' hh
        rw [this] at htr
        cases htr

theorem dead_preserved {ts ts' : List Timer} (hlen : ts'.length = ts.length)
    (hev : TEvol ts ts') (hdead : ∀ t ∈ ts, deadT t = true) :
    ∀ t ∈ ts', deadT t = true := by
  intro t ht
  obtain ⟨i, hi⟩ := getElem?_of_mem' ht
  have hlt : i < ts.length := by
    have := getElem?_some_lt hi
    rwa [hlen] at this
  obtain ⟨u, hu⟩ : ∃ u, ts[i]? = some u := ⟨ts[i], List.getElem?_eq_getElem hlt⟩
  obtain ⟨t'', ht'', _, _, hev'⟩ := hev i u hu
  rw [hi] at ht''
  cases ht''
  exact evolves_dead (hdead u (mem_of_getElem?' hu)) hev'

theorem cancelTimeouts_detached_pres {s : St} (hD : Detached s) :
    Detached (cancelTimeouts s) := by
  constructor
  · exact dead_preserved (cancelTimeouts_timers_length s) (cancelTimeouts_tevol s) hD.1
  · intro l hl
    exact hD.2 l (cancelTimeouts_listeners_subset s l hl)

theorem runHandlerD_plain (n : Nat) (ctx : Ctx) (h : Handler) (d : EvData)
    (hp : plainHandler h = true) {u : St} (hD : Detached u) :
    Detached (runHandlerD n ctx h d u) ∧ (runHandlerD n ctx h d u).emitted = u.emitted := by
  cases h with
  | errorListener =>
    cases n with
    | zero => exact ⟨hD, rfl⟩
    | succ n =>
      cases d with
      | err e =>
        rw [runHandlerD]
        split
        · exact ⟨hD, rfl⟩
        · exact ⟨cancelTimeouts_detached_pres hD, cancelTimeouts_emitted u⟩
      | unit => exact ⟨hD, rfl⟩
      | lookupRes e => exact ⟨hD, rfl⟩
      | socketInfo c a => exact ⟨hD, rfl⟩
      | response => exact ⟨hD, rfl⟩
  | foreign k =>
    cases n with
    | zero => exact ⟨hD, rfl⟩
    | succ n => cases d <;> exact ⟨hD, rfl⟩
  | responseListener => simp [plainHandler] at hp
  | endListener => simp [plainHandler] at hp
  | socketListener => simp [plainHandler] at hp
  | timerCancel i => simp [plainHandler] at hp
  | connectLookupListener => simp [plainHandler] at hp
  | secureConnectConnectListener => simp [plainHandler] at hp
  | sendConnectListener => simp [plainHandler] at hp
  | responseUploadListener => simp [plainHandler] at hp
  | socketTimeoutHandler => simp [plainHandler] at hp

theorem emitEvent_detached (ctx : Ctx) (tgt : Emitter) (ev : String) (d : EvData)
    {s : St} (hD : Detached s) :
    Detached (emitEvent ctx tgt ev d s) ∧ (emitEvent ctx tgt ev d s).emitted = s.emitted := by
  unfold emitEvent emitWith
  refine foldl_pres (fun u => Detached u ∧ u.emitted = s.emitted) _ _ _
    ⟨⟨hD.1, fun l hl => hD.2 l (List.mem_of_mem_filter hl)⟩, rfl⟩ ?_
  intro u l hsnap hu
  have hplain : plainHandler l.h = true := hD.2 l (List.mem_of_mem_filter hsnap)
  obtain ⟨h1, h2⟩ := runHandlerD_plain fuelF ctx l.h d hplain hu.1
  exact ⟨h1, h2.trans hu.2⟩

theorem step_detached (ctx : Ctx) (a : Step) {s : St} (hD : Detached s) :
    Detached (step ctx a s) ∧ (step ctx a s).emitted = s.emitted := by
  cases a with
  | fireTimeout i =>
    rw [step]
    cases hi : s.timers[i]? with
    | some t =>
      dsimp only
      rw [if_neg (deadT_not_waiting (hD.1 t (mem_of_getElem?' hi)))]
      exact ⟨hD, rfl⟩
    | none => exact ⟨hD, rfl⟩
  | runImmediate i =>
    rw [step]
    cases hi : s.timers[i]? with
    | some t =>
      dsimp only
      rw [if_neg (deadT_not_deferred (hD.1 t (mem_of_getElem?' hi)))]
      exact ⟨hD, rfl⟩
    | none => exact ⟨hD, rfl⟩
  | emitReqError e => exact emitEvent_detached ctx _ _ _ hD
  | emitResponse => exact emitEvent_detached ctx _ _ _ hD
  | emitResponseEnd => exact emitEvent_detached ctx _ _ _ hD
  | emitSocket c a => exact emitEvent_detached ctx _ _ _ hD
  | emitLookup e => exact emitEvent_detached ctx _ _ _ hD
  | emitConnect => exact emitEvent_detached ctx _ _ _ hD
  | emitSecureConnect => exact emitEvent_detached ctx _ _ _ hD
  | emitUploadComplete => exact emitEvent_detached ctx _ _ _ hD
  | emitNativeTimeout => exact emitEvent_detached ctx _ _ _ hD
  | callCancelAll => exact ⟨cancelTimeouts_detached_pres hD, cancelTimeouts_emitted s⟩
  | addForeign tgt ev k =>
    refine ⟨⟨hD.1, ?_⟩, rfl⟩
    intro l hl
    rcases List.mem_append.mp hl with h | h
    · exact hD.2 l h
    · rw [List.mem_singleton.mp h]
      rfl

theorem run_detached (ctx : Ctx) (l : List Step) {s : St} (hD : Detached s) :
    Detached (run ctx l s) ∧ (run ctx l s).emitted = s.emitted := by
  unfold run
  refine foldl_pres (fun u => Detached u ∧ u.emitted = s.emitted) _ l s ⟨hD, rfl⟩ ?_
  intro u a _ hu
  obtain ⟨h1, h2⟩ := step_detached ctx a hu.1
  exact ⟨h1, h2.trans hu.2⟩

theorem mapAt_eq_self_of_none {i : Nat} {ts : List Timer} (f : Timer → Timer)
    (h : ts[i]? = none) : mapAt i f ts = ts := by
  induction ts generalizing i with
  | nil => cases i <;> rfl
  | cons t ts ih =>
    cases i with
    | zero => rw [List.getElem?_cons_zero] at h; cases h
    | succ n =>
      rw [List.getElem?_cons_succ] at h
      simp only [mapAt]
      rw [ih h]

theorem mapAt_eq_self {i : Nat} {ts : List Timer} {t : Timer} (f : Timer → Timer)
    (h : ts[i]? = some t) (hf : f t = t) : mapAt i f ts = ts := by
  induction ts generalizing i with
  | nil => cases i <;> cases h
  | cons u ts ih =>
    cases i with
    | zero =>
      rw [List.getElem?_cons_zero] at h
      cases h
      simp only [mapAt]
      rw [hf]
    | succ n =>
      rw [List.getElem?_cons_succ] at h
      simp only [mapAt]
      rw [ih h]

theorem cancelOne_eq_self_of_dead {t : Timer} (h : deadT t = true) : cancelOne t = t := by
  cases t with
  | mk d e st => cases st <;> simp [deadT] at h ⊢ <;> rfl

theorem cancelTimeouts_idem (s : St) :
    cancelTimeouts (cancelTimeouts s) = cancelTimeouts s := by
  have hfix : ∀ cc ∈ (cancelTimeouts s).cancelers,
      runCancel cc (cancelTimeouts s) = cancelTimeouts s := by
    intro cc hcc
    rw [cancelTimeouts_cancelers] at hcc
    cases cc with
    | timer i =>
      have hts : cancelAt i (cancelTimeouts s).timers = (cancelTimeouts s).timers := by
        cases hti : (cancelTimeouts s).timers[i]? with
        | none => exact mapAt_eq_self_of_none cancelOne hti
        | some t =>
          exact mapAt_eq_self cancelOne hti
            (cancelOne_eq_self_of_dead (fold_cancels_dead s i hcc t hti))
      simp only [runCancel, hts]
    | removeSocketTimeoutListener =>
      have hl : ∀ l ∈ (cancelTimeouts s).listeners,
          (!(decide (l.target = Emitter.request) && decide (l.ev = "timeout")
            && decide (l.h = Handler.socketTimeoutHandler))) = true := by
        intro l hme
        have h1 : l ∈ (s.cancelers.foldl (fun u c => runCancel c u) s).listeners :=
          List.mem_of_mem_filter hme
        have h2 := fold_nosock s (Or.inl hcc) l h1
        simp only [Bool.not_eq_true', Bool.and_eq_false_iff, decide_eq_false_iff_not]
        tauto
      simp only [runCancel, filter_id_of _ _ hl]
  have h1 : (cancelTimeouts s).cancelers.foldl (fun u c => runCancel c u) (cancelTimeouts s)
      = cancelTimeouts s := foldl_fix _ _ _ hfix
  have h2 : unhandleAll (cancelTimeouts s) = cancelTimeouts s := by
    have hl : ∀ l ∈ (cancelTimeouts s).listeners, (!l.tracked) = true := by
      intro l hme
      have : l.tracked = false := by
        have hmm : l ∈ List.filter (fun l => !l.tracked)
            ((s.cancelers.foldl (fun u c => runCancel c u) s).listeners) := hme
        simpa using (List.mem_filter.mp hmm).2
      rw [this]
      rfl
    unfold unhandleAll
    rw [filter_id_of _ _ hl]
  calc cancelTimeouts (cancelTimeouts s)
      = unhandleAll ((cancelTimeouts s).cancelers.foldl
          (fun u c => runCancel c u) (cancelTimeouts s)) := rfl
    _ = unhandleAll (cancelTimeouts s) := by rw [h1]
    _ = cancelTimeouts s := h2

theorem runHandler_errorListener (ctx : Ctx) (e : ErrObj) (s : St) :
    runHandler ctx Handler.errorListener (EvData.err e) s =
      if e.message = "socket hang up" then s else cancelTimeouts s := rfl

theorem runHandler_foreign (ctx : Ctx) (k : Nat) (d : EvData) (s : St) :
    runHandler ctx (Handler.foreign k) d s = s := by
  cases d <;> rfl

theorem runHandler_timerCancel (ctx : Ctx) (i : Nat) (d : EvData) (s : St) :
    runHandler ctx (Handler.timerCancel i) d s = { s with timers := cancelAt i s.timers } := by
  cases d <;> rfl

theorem runHandler_socketListener (ctx : Ctx) (c a : Bool) (s : St) :
    runHandler ctx Handler.socketListener (EvData.socketInfo c a) s = socketBody ctx c a s := rfl

theorem runHandler_connectLookup_success (ctx : Ctx) (s : St) :
    runHandler ctx Handler.connectLookupListener (EvData.lookupRes none) s =
      (match ctx.delays.connect with
       | some d =>
         addL { target := Emitter.socket, ev := "connect",
                h := Handler.timerCancel (addTimeout d ("connect") s).1
                isOnce := true, tracked := true } (addTimeout d ("connect") s).2
       | none => s) := rfl

theorem runHandler_connectLookup_failure (ctx : Ctx) (e0 : ErrObj) (s : St) :
    runHandler ctx Handler.connectLookupListener (EvData.lookupRes (some e0)) s = s := rfl

theorem error_slot {ctx : Ctx} {s : St} (hInv : Inv ctx s) {l : Listener}
    (hl : l ∈ s.listeners) (ht : l.target = Emitter.request) (he : l.ev = "error") :
    plainHandler l.h = true ∧ l.isOnce = false := by
  have hg := hInv.good l hl
  cases l with
  | mk tgt ev h o tr =>
    have ht' : tgt = Emitter.request := ht
    have he' : ev = "error" := he
    subst ht'
    subst he'
    cases h with
    | errorListener =>
      simp only [goodListener, Bool.and_eq_true] at hg
      exact ⟨rfl, by simpa using hg.1.2⟩
    | foreign k =>
      simp only [goodListener, Bool.and_eq_true] at hg
      exact ⟨rfl, by simpa using hg.1⟩
    | socketTimeoutHandler => exact absurd hg (by simp [goodListener])
    | responseListener => exact absurd hg (by simp [goodListener])
    | endListener => exact absurd hg (by simp [goodListener])
    | socketListener => exact absurd hg (by simp [goodListener])
    | timerCancel i => exact absurd hg (by simp [goodListener])
    | connectLookupListener => exact absurd hg (by simp [goodListener])
    | secureConnectConnectListener => exact absurd hg (by simp [goodListener])
    | sendConnectListener => exact absurd hg (by simp [goodListener])
    | responseUploadListener => exact absurd hg (by simp [goodListener])

theorem error_once_filter {ctx : Ctx} {s : St} (hInv : Inv ctx s) :
    ∀ l ∈ s.listeners,
      (!(decide (l.target = Emitter.request) && decide (l.ev = "error") && l.isOnce)) = true := by
  intro l hl
  by_cases ht : l.target = Emitter.request
  · by_cases he : l.ev = "error"
    · obtain ⟨_, honce⟩ := error_slot hInv hl ht he
      simp [honce]
    · simp [he]
  · simp [ht]

theorem emit_error_hangup {ctx : Ctx} {s : St} (hInv : Inv ctx s) (e : ErrObj)
    (hm : e.message = "socket hang up") :
    step ctx (Step.emitReqError e) s = s := by
  show emitWith (fun h e s => runHandler ctx h e s) Emitter.request ("error") (EvData.err e) s = s
  unfold emitWith
  rw [filter_id_of _ _ (error_once_filter hInv)]
  refine foldl_fix _ _ _ ?_
  intro l hl
  have hmem : l ∈ s.listeners := List.mem_of_mem_filter hl
  have hpred := (List.mem_filter.mp hl).2
  simp only [Bool.and_eq_true, decide_eq_true_eq] at hpred
  obtain ⟨hplain, _⟩ := error_slot hInv hmem hpred.1 hpred.2
  cases hh : l.h with
  | errorListener =>
    show runHandler ctx Handler.errorListener (EvData.err e) _ = _
    rw [runHandler_errorListener, if_pos hm]
  | foreign k =>
    show runHandler ctx (Handler.foreign k) (EvData.err e) _ = _
    rw [runHandler_foreign]
  | responseListener => rw [hh] at hplain; simp [plainHandler] at hplain
  | endListener => rw [hh] at hplain; simp [plainHandler] at hplain
  | socketListener => rw [hh] at hplain; simp [plainHandler] at hplain
  | timerCancel i => rw [hh] at hplain; simp [plainHandler] at hplain
  | connectLookupListener => rw [hh] at hplain; simp [plainHandler] at hplain
  | secureConnectConnectListener => rw [hh] at hplain; simp [plainHandler] at hplain
  | sendConnectListener => rw [hh] at hplain; simp [plainHandler] at hplain
  | responseUploadListener => rw [hh] at hplain; simp [plainHandler] at hplain
  | socketTimeoutHandler => rw [hh] at hplain; simp [plainHandler] at hplain

theorem emit_error_cancels {ctx : Ctx} {s : St} (hInv : Inv ctx s) (e : ErrObj)
    (hm : ¬ e.message = "socket hang up") :
    Detached (step ctx (Step.emitReqError e) s) := by
  show Detached
    (emitWith (fun h e s => runHandler ctx h e s) Emitter.request ("error") (EvData.err e) s)
  unfold emitWith
  refine foldl_estab2 (Inv ctx) Detached _ _ errListener ?_ ?_ ?_ ?_ _ ?_
  · exact List.mem_filter.mpr ⟨hInv.errL, by decide⟩
  · intro u l _ hu
    exact runHandlerD_inv fuelF ctx l.h (EvData.err e) hu
  · intro u hu
    show Detached (runHandler ctx errListener.h (EvData.err e) u)
    rw [show errListener.h = Handler.errorListener from rfl, runHandler_errorListener, if_neg hm]
    exact cancelTimeouts_detached hu
  · intro u l hl hu
    have hmem : l ∈ s.listeners := List.mem_of_mem_filter hl
    have hpred := (List.mem_filter.mp hl).2
    simp only [Bool.and_eq_true, decide_eq_true_eq] at hpred
    obtain ⟨hplain, _⟩ := error_slot hInv hmem hpred.1 hpred.2
    exact (runHandlerD_plain fuelF ctx l.h (EvData.err e) hplain hu).1
  · exact filter_inv_listeners hInv _ (by simp [errListener])

theorem plain_ne_sock {h : Handler} (hp : plainHandler h = true) :
    h ≠ Handler.socketTimeoutHandler := by
  cases h <;> simp [plainHandler] at hp ⊢

theorem goodListener_foreign_untracked {l : Listener} (hg : goodListener l = true)
    (hf : isForeignB l.h = true) : l.tracked = false := by
  cases l with
  | mk tgt ev h o tr =>
    cases h <;> simp [isForeignB] at hf
    simp only [goodListener, Bool.and_eq_true] at hg
    simpa using hg.2

theorem filter_filter_of_mem {α : Type} (p q : α → Bool) (l : List α)
    (h : ∀ x ∈ l, p x = true → q x = true) : (l.filter q).filter p = l.filter p := by
  induction l with
  | nil => rfl
  | cons x xs ih =>
    have ih' := ih fun a ha => h a (List.mem_cons_of_mem x ha)
    by_cases hq : q x = true
    · by_cases hp : p x = true
      · simp [List.filter_cons, hq, hp, ih']
      · simp only [List.filter_cons, hq, if_pos]
        simp [List.filter_cons, hp, ih']
    · have hp : p x = false := by
        cases hpx : p x
        · rfl
        · exact absurd (h x (List.mem_cons_self x xs) hpx) hq
      simp [List.filter_cons, hq, hp, ih']

theorem cancelTimeouts_foreign {ctx : Ctx} {s : St} (hInv : Inv ctx s) :
    (cancelTimeouts s).listeners.filter (fun l => isForeignB l.h)
      = s.listeners.filter (fun l => isForeignB l.h) := by
  have hfold : ((s.cancelers.foldl (fun u c => runCancel c u) s).listeners.filter
        (fun l => isForeignB l.h) = s.listeners.filter (fun l => isForeignB l.h))
      ∧ ∀ l ∈ (s.cancelers.foldl (fun u c => runCancel c u) s).listeners, l ∈ s.listeners := by
    refine foldl_pres (fun u => u.listeners.filter (fun l => isForeignB l.h)
        = s.listeners.filter (fun l => isForeignB l.h)
        ∧ ∀ l ∈ u.listeners, l ∈ s.listeners) _ s.cancelers s ⟨rfl, fun l hl => hl⟩ ?_
    intro u c _ hu
    cases c with
    | timer i => exact hu
    | removeSocketTimeoutListener =>
      constructor
      · show (u.listeners.filter _).filter (fun l => isForeignB l.h) = _
        rw [filter_filter_of_mem _ _ _ ?_]
        · exact hu.1
        · intro x _ hx
          have : x.h ≠ Handler.socketTimeoutHandler := by
            cases hxh : x.h <;> simp [isForeignB, hxh] at hx ⊢
          simp [this]
      · intro l hl
        exact hu.2 l (List.mem_of_mem_filter hl)
  show ((s.cancelers.foldl (fun u c => runCancel c u) s).listeners.filter
      (fun l => !l.tracked)).filter (fun l => isForeignB l.h) = _
  rw [filter_filter_of_mem _ _ _ ?_]
  · exact hfold.1
  · intro x hx hxf
    have hgood := hInv.good x (hfold.2 x hx)
    rw [goodListener_foreign_untracked hgood hxf]
    rfl

theorem filter_nil_of {α : Type} (p : α → Bool) (l : List α)
    (h : ∀ a ∈ l, p a = false) : l.filter p = [] := by
  induction l with
  | nil => rfl
  | cons x xs ih =>
    simp [List.filter_cons, h x (List.mem_cons_self x xs),
      ih fun a ha => h a (List.mem_cons_of_mem x ha)]

theorem emitWith_no_listeners (run : Handler → EvData → St → St)
    (tgt : Emitter) (ev : String) (d : EvData) (s : St)
    (hq : ∀ l ∈ s.listeners, ¬(l.target = tgt ∧ l.ev = ev)) :
    emitWith run tgt ev d s = s := by
  show (s.listeners.filter fun l => decide (l.target = tgt) && decide (l.ev = ev)).foldl
      (fun acc l => run l.h d acc)
      { s with listeners := s.listeners.filter fun l =>
          !(decide (l.target = tgt) && decide (l.ev = ev) && l.isOnce) } = s
  have h1 : (s.listeners.filter fun l => decide (l.target = tgt) && decide (l.ev = ev)) = [] := by
    refine filter_nil_of _ _ ?_
    intro a ha
    have := hq a ha
    simp only [Bool.and_eq_false_iff, decide_eq_false_iff_not]
    tauto
  have h2 : (s.listeners.filter fun l =>
      !(decide (l.target = tgt) && decide (l.ev = ev) && l.isOnce)) = s.listeners := by
    refine filter_id_of _ _ ?_
    intro a ha
    have := hq a ha
    have hd : (decide (a.target = tgt) && decide (a.ev = ev)) = false := by
      simp only [Bool.and_eq_false_iff, decide_eq_false_iff_not]
      tauto
    simp [Bool.and_assoc] at hd ⊢
    tauto
  rw [h1, h2]
  rfl

theorem timersOf_addL (ev : String) (l : Listener) (s : St) :
    timersOf ev (addL l s) = timersOf ev s := rfl

theorem timersOf_addTimeout_same (d : Nat) (ev : String) (s : St) :
    timersOf ev (addTimeout d ev s).2
      = timersOf ev s ++ [{ delay := d, event := ev, tstate := TState.waiting }] := by
  unfold timersOf addTimeout
  rw [List.filter_append]
  simp

theorem timersOf_addTimeout_ne (d : Nat) (ev' ev : String) (hne : ev' ≠ ev) (s : St) :
    timersOf ev (addTimeout d ev' s).2 = timersOf ev s := by
  unfold timersOf addTimeout
  rw [List.filter_append]
  simp [hne]

theorem lookupPart_timersOf_ne (ctx : Ctx) (a : Bool) (s : St) (ev : String)
    (hne : ev ≠ "lookup") : timersOf ev (lookupPart ctx a s) = timersOf ev s := by
  unfold lookupPart
  cases ctx.delays.lookup with
  | none => rfl
  | some d =>
    dsimp only
    split
    · rw [timersOf_addL, timersOf_addTimeout_ne d ("lookup") ev (fun h => hne h.symm)]
    · rfl

theorem connectPart_timersOf_ne (ctx : Ctx) (s : St) (ev : String)
    (hne : ev ≠ "connect") : timersOf ev (connectPart ctx s) = timersOf ev s := by
  unfold connectPart
  cases ctx.delays.connect with
  | none => rfl
  | some d =>
    dsimp only
    split
    · rw [timersOf_addL, timersOf_addTimeout_ne d ("connect") ev (fun h => hne h.symm)]
    · rfl

theorem securePart_timersOf (ctx : Ctx) (s : St) (ev : String) :
    timersOf ev (securePart ctx s) = timersOf ev s := by
  unfold securePart
  split <;> rfl

theorem sendPart_timersOf_ne (ctx : Ctx) (c : Bool) (s : St) (ev : String)
    (hne : ev ≠ "send") : timersOf ev (sendPart ctx c s) = timersOf ev s := by
  unfold sendPart
  cases ctx.delays.send with
  | none => rfl
  | some d =>
    dsimp only
    split
    · rfl
    · rw [timersOf_addL, timersOf_addTimeout_ne d ("send") ev (fun h => hne h.symm)]

theorem lookupPart_listeners_mono (ctx : Ctx) (a : Bool) (s : St) {l : Listener}
    (hl : l ∈ s.listeners) : l ∈ (lookupPart ctx a s).listeners := by
  unfold lookupPart
  cases ctx.delays.lookup with
  | none => exact hl
  | some d =>
    dsimp only
    split
    · exact List.mem_append.mpr (Or.inl hl)
    · exact hl

theorem connectPart_listeners_mono (ctx : Ctx) (s : St) {l : Listener}
    (hl : l ∈ s.listeners) : l ∈ (connectPart ctx s).listeners := by
  unfold connectPart
  cases ctx.delays.connect with
  | none => exact hl
  | some d =>
    dsimp only
    split
    · exact List.mem_append.mpr (Or.inl hl)
    · exact List.mem_append.mpr (Or.inl hl)

theorem securePart_listeners_mono (ctx : Ctx) (s : St) {l : Listener}
    (hl : l ∈ s.listeners) : l ∈ (securePart ctx s).listeners := by
  unfold securePart
  split
  · exact List.mem_append.mpr (Or.inl hl)
  · exact hl

theorem sendPart_listeners_mono (ctx : Ctx) (c : Bool) (s : St) {l : Listener}
    (hl : l ∈ s.listeners) : l ∈ (sendPart ctx c s).listeners := by
  unfold sendPart
  cases ctx.delays.send with
  | none => exact hl
  | some d =>
    dsimp only
    split
    · exact List.mem_append.mpr (Or.inl hl)
    · exact List.mem_append.mpr (Or.inl hl)

theorem getElem?_append_self {α : Type} (l1 : List α) (a : α) (l2 : List α) :
    ((l1 ++ [a]) ++ l2)[l1.length]? = some a := by
  induction l1 with
  | nil => simp
  | cons x xs ih => simpa using ih

theorem canceled_persists (ctx : Ctx) (l : List Step) {s : St} {i : Nat} {t : Timer}
    (hi : s.timers[i]? = some t) (hc : t.tstate = TState.canceled) :
    ∀ u : Timer, (run ctx l s).timers[i]? = some u → u.tstate = TState.canceled := by
  intro u hu
  obtain ⟨t', ht', _, _, hev⟩ := run_tevol ctx l s i t hi
  rw [hu] at ht'
  cases ht'
  rw [hc] at hev
  exact evolves_canceled _ hev

theorem requestPart_reentry (ctx : Ctx) (s : St) :
    (requestPart ctx s).reentry = s.reentry := by
  unfold requestPart
  cases ctx.delays.request <;> rfl

theorem sockTimeoutPart_reentry (ctx : Ctx) (s : St) :
    (sockTimeoutPart ctx s).reentry = s.reentry := by
  unfold sockTimeoutPart
  cases ctx.delays.socket <;> rfl

theorem responsePart_reentry (ctx : Ctx) (s : St) :
    (responsePart ctx s).reentry = s.reentry := by
  unfold responsePart
  cases ctx.delays.response <;> rfl

theorem attachTo_reentry (ctx : Ctx) (s : St) : ((attachTo ctx s).2).reentry = true := by
  unfold attachTo
  cases hre : s.reentry with
  | true => rw [if_pos rfl]; exact hre
  | false =>
    rw [if_neg Bool.false_ne_true]
    show (responsePart ctx _).reentry = true
    rw [responsePart_reentry]
    show (addL _ (sockTimeoutPart ctx (requestPart ctx (attachBase s)))).reentry = true
    show (sockTimeoutPart ctx (requestPart ctx (attachBase s))).reentry = true
    rw [sockTimeoutPart_reentry, requestPart_reentry]
    rfl

theorem attachTo_marked (ctx : Ctx) {s : St} (h : s.reentry = true) :
    attachTo ctx s = (false, s) := by
  unfold attachTo
  rw [if_pos h]

/-- C1 (amended): for every attach call on a reachable state, the returned
cancelAll leaves every timer spent, releases every tracked subscription
and the native idle-timeout handler (only the persistent error listener
and foreign listeners remain; the persistent error listener installed
with request.on is not released, against the claim's wording), is
idempotent, emits nothing itself, and no TimeoutError is ever raised
afterwards under any later scheduling, even if an elapsed deadline still
has its deferred callback pending. -/
theorem C1_cancelAll_total (ctx : Ctx) (s : St) (h : Reachable ctx s) :
    Detached (cancelTimeouts s)
    ∧ errListener ∈ (cancelTimeouts s).listeners
    ∧ cancelTimeouts (cancelTimeouts s) = cancelTimeouts s
    ∧ (cancelTimeouts s).emitted = s.emitted
    ∧ ∀ l : List Step, (run ctx l (cancelTimeouts s)).emitted = (cancelTimeouts s).emitted := by
  have hInv := reachable_inv h
  refine ⟨cancelTimeouts_detached hInv, (cancelTimeouts_inv hInv).errL,
    cancelTimeouts_idem s, cancelTimeouts_emitted s, ?_⟩
  intro l
  exact (run_detached ctx l (cancelTimeouts_detached hInv)).2

/-- C1 counterexample: the claim says cancelAll releases every subscription
registered by the attach call, but the persistent error listener that
attach registers with request.on is still installed after cancelAll
runs on the state produced by a fresh attach. -/
theorem C1_counterexample :
    initSt.listeners = []
    ∧ errListener ∈ ((attachTo ctxEx initSt).2).listeners
    ∧ errListener ∈ (cancelTimeouts (attachTo ctxEx initSt).2).listeners := by
  refine ⟨rfl, ?_, ?_⟩ <;> decide

/-- Witness for C1: the amended theorem applied to the state of a fresh
attach under the concrete context, with a concrete later scheduling. -/
theorem C1_witness :
    Detached (cancelTimeouts (attachTo ctxEx initSt).2)
    ∧ (run ctxEx [Step.emitNativeTimeout, Step.fireTimeout 0, Step.runImmediate 0]
        (cancelTimeouts (attachTo ctxEx initSt).2)).emitted
      = (cancelTimeouts (attachTo ctxEx initSt).2).emitted := by
  have h := C1_cancelAll_total ctxEx _ Reachable.base
  exact ⟨h.1, h.2.2.2.2 _⟩

/-- C2 (amended): on the request error signal the supervisor cancels all
timers and releases all tracked subscriptions unless the error's message
is exactly the string socket hang up, in which case the delivery leaves
the state entirely unchanged; the benign case is classified by the
message text, not by a structured condition on the error. -/
theorem C2_errorSignal_cancels (ctx : Ctx) (s : St) (h : Reachable ctx s) (e : ErrObj) :
    (¬ e.message = "socket hang up" → Detached (step ctx (Step.emitReqError e) s))
    ∧ (e.message = "socket hang up" → step ctx (Step.emitReqError e) s = s) := by
  have hInv := reachable_inv h
  exact ⟨fun hm => emit_error_cancels hInv e hm, fun hm => emit_error_hangup hInv e hm⟩

/-- C2 counterexample: two errors agreeing on every structured field (name,
code, event) and differing only in message text are classified
differently, so the benign case is decided by message matching, not by a
structured condition as the claim states. -/
theorem C2_counterexample :
    ({ name := "Error", message := "socket hang up", code := some "ECONNRESET",
       event := none } : ErrObj).name
      = ({ name := "Error", message := "read ECONNRESET", code := some "ECONNRESET",
           event := none } : ErrObj).name
    ∧ ({ name := "Error", message := "socket hang up", code := some "ECONNRESET",
         event := none } : ErrObj).code
      = ({ name := "Error", message := "read ECONNRESET", code := some "ECONNRESET",
           event := none } : ErrObj).code
    ∧ step ctxEx
        (Step.emitReqError
          { name := "Error", message := "socket hang up", code := some "ECONNRESET",
            event := none })
        (attachTo ctxEx initSt).2
      = (attachTo ctxEx initSt).2
    ∧ ¬ (step ctxEx
        (Step.emitReqError
          { name := "Error", message := "read ECONNRESET", code := some "ECONNRESET",
            event := none })
        (attachTo ctxEx initSt).2).timers
      = ((attachTo ctxEx initSt).2).timers := by
  refine ⟨rfl, rfl, ?_, ?_⟩ <;> decide

/-- Witness for C2: both directions of the amended theorem at the state of
a fresh attach, with one teardown error and one ordinary error. -/
theorem C2_witness :
    Detached (step ctxEx
        (Step.emitReqError
          { name := "Error", message := "read ECONNRESET", code := some "ECONNRESET",
            event := none })
        (attachTo ctxEx initSt).2)
    ∧ step ctxEx
        (Step.emitReqError
          { name := "Error", message := "socket hang up", code := some "ECONNRESET",
            event := none })
        (attachTo ctxEx initSt).2
      = (attachTo ctxEx initSt).2 := by
  refine ⟨?_, ?_⟩
  · exact (C2_errorSignal_cancels ctxEx _ Reachable.base
      { name := "Error", message := "read ECONNRESET", code := some "ECONNRESET",
        event := none }).1 (by decide)
  · exact (C2_errorSignal_cancels ctxEx _ Reachable.base
      { name := "Error", message := "socket hang up", code := some "ECONNRESET",
        event := none }).2 rfl

/-- C3: a timer armed by addTimeout defers its callback past the elapse of
the deadline: the elapse step emits nothing and aborts nothing, only
scheduling the deferred invocation; the deferred invocation, when it
runs, invokes timeoutHandler; invoking the timer's cancel while the
deferred invocation is still pending keeps the callback from ever
running under any later scheduling; and invoking cancel after the
callback has already run changes nothing at all. -/
theorem C3_deferred_firing (ctx : Ctx) (s : St) (i : Nat) (t : Timer)
    (hi : s.timers[i]? = some t) :
    (t.tstate = TState.waiting →
      (step ctx (Step.fireTimeout i) s).emitted = s.emitted
      ∧ (step ctx (Step.fireTimeout i) s).aborted = s.aborted
      ∧ (step ctx (Step.fireTimeout i) s).timers[i]? = some { t with tstate := TState.deferred })
    ∧ (t.tstate = TState.deferred →
      step ctx (Step.runImmediate i) s
        = timeoutHandler ctx t.delay t.event
            { s with timers := mapAt i (fun u => { u with tstate := TState.done }) s.timers }
      ∧ ∀ (l : List Step) (u : Timer),
          (run ctx l (runCancel (Canceler.timer i) s)).timers[i]? = some u →
            u.tstate = TState.canceled)
    ∧ (t.tstate = TState.done → runCancel (Canceler.timer i) s = s) := by
  refine ⟨?_, ?_, ?_⟩
  · intro hw
    have hstep : step ctx (Step.fireTimeout i) s
        = { s with timers := mapAt i (fun u => { u with tstate := TState.deferred }) s.timers } := by
      simp only [step, hi]
      rw [if_pos hw]
    refine ⟨by rw [hstep], by rw [hstep], ?_⟩
    rw [hstep]
    show (mapAt i (fun u => { u with tstate := TState.deferred }) s.timers)[i]? = _
    rw [getElem?_mapAt_self, hi]
    rfl
  · intro hd
    constructor
    · simp only [step, hi]
      rw [if_pos hd]
    · intro l u hu
      have hco : cancelOne t = { t with tstate := TState.canceled } := by
        cases t with
        | mk dl ev st =>
          cases st with
          | deferred => rfl
          | waiting => exact nomatch hd
          | done => exact nomatch hd
          | canceled => exact nomatch hd
      have h0 : (runCancel (Canceler.timer i) s).timers[i]?
          = some { t with tstate := TState.canceled } := by
        show (cancelAt i s.timers)[i]? = _
        rw [cancelAt, getElem?_mapAt_self, hi]
        simp [hco]
      exact canceled_persists ctx l h0 rfl u hu
  · intro hdone
    have hself : cancelOne t = t := by
      refine cancelOne_eq_self_of_dead ?_
      cases t with
      | mk dl ev st =>
        cases st with
        | done => rfl
        | waiting => exact nomatch hdone
        | deferred => exact nomatch hdone
        | canceled => exact nomatch hdone
    show { s with timers := cancelAt i s.timers } = s
    rw [cancelAt, mapAt_eq_self cancelOne hi hself]

/-- Witness for C3: the request timer of a concrete attach, fired and then
run or canceled at each stage. -/
theorem C3_witness :
    (step ctxEx (Step.fireTimeout 0) (attachTo ctxEx initSt).2).emitted = []
    ∧ runCancel (Canceler.timer 0)
        (run ctxEx [Step.fireTimeout 0, Step.runImmediate 0] (attachTo ctxEx initSt).2)
      = run ctxEx [Step.fireTimeout 0, Step.runImmediate 0] (attachTo ctxEx initSt).2 := by
  constructor
  · have h := (C3_deferred_firing ctxEx (attachTo ctxEx initSt).2 0
      { delay := 5, event := "request", tstate := TState.waiting } (by decide)).1 rfl
    exact h.1.trans (by decide)
  · exact (C3_deferred_firing ctxEx
      (run ctxEx [Step.fireTimeout 0, Step.runImmediate 0] (attachTo ctxEx initSt).2) 0
      { delay := 5, event := "request", tstate := TState.done } (by decide)).2.2 rfl

/-- C4: for every request, a second attach on an already attached request
is a no-op: it installs no subscriptions and no timers, leaving exactly
the first attach's subscription set in place, and it returns the
trivial no-op handle whose invocation has no observable effect. -/
theorem C4_reentry_noop (ctx1 ctx2 : Ctx) (s : St) :
    attachTo ctx2 (attachTo ctx1 s).2 = (false, (attachTo ctx1 s).2)
    ∧ ∀ u : St, runHandle (attachTo ctx2 (attachTo ctx1 s).2).1 u = u := by
  have heq := attachTo_marked ctx2 (attachTo_reentry ctx1 s)
  refine ⟨heq, fun u => ?_⟩
  rw [heq]
  rfl

/-- Witness for C4: a second attach with a different configuration on a
concretely attached request. -/
theorem C4_witness :
    attachTo ctxAll (attachTo ctxEx initSt).2 = (false, (attachTo ctxEx initSt).2)
    ∧ runHandle (attachTo ctxAll (attachTo ctxEx initSt).2).1 initSt = initSt := by
  have h := C4_reentry_noop ctxEx ctxAll initSt
  exact ⟨h.1, h.2 initSt⟩

/-- C5: when a connect delay is configured and the socket signal arrives
with the socket connecting, the connect timer is armed immediately if
the target is a unix socket path or a literal IP; otherwise no connect
timer is armed yet and the lookup handler is registered instead, and
that handler arms the connect timer on a success result while a lookup
signal carrying an error arms nothing. -/
theorem C5_connect_arming (ctx : Ctx) (d : Nat) (hC : ctx.delays.connect = some d)
    (a : Bool) (s : St) :
    ((ctx.socketPath || isIPTarget ctx) = true →
      timersOf ("connect") (socketBody ctx true a s)
        = timersOf ("connect") s ++ [{ delay := d, event := "connect", tstate := TState.waiting }])
    ∧ ((ctx.socketPath || isIPTarget ctx) = false →
      timersOf ("connect") (socketBody ctx true a s) = timersOf ("connect") s
      ∧ { target := Emitter.socket, ev := "lookup", h := Handler.connectLookupListener,
          isOnce := true, tracked := true } ∈ (socketBody ctx true a s).listeners
      ∧ (∀ (s' : St) (e0 : ErrObj),
          timersOf ("connect")
              (runHandler ctx Handler.connectLookupListener (EvData.lookupRes (some e0)) s')
            = timersOf ("connect") s')
      ∧ (∀ s' : St,
          timersOf ("connect")
              (runHandler ctx Handler.connectLookupListener (EvData.lookupRes none) s')
            = timersOf ("connect") s'
              ++ [{ delay := d, event := "connect", tstate := TState.waiting }])) := by
  constructor
  · intro hcond
    have hcp : ∀ u : St, timersOf ("connect") (connectPart ctx u)
        = timersOf ("connect") u
          ++ [{ delay := d, event := "connect", tstate := TState.waiting }] := by
      intro u
      unfold connectPart
      rw [hC]
      dsimp only
      rw [if_pos hcond, timersOf_addL, timersOf_addTimeout_same]
    show timersOf ("connect")
        (sendPart ctx true (securePart ctx (connectPart ctx (lookupPart ctx a s)))) = _
    rw [sendPart_timersOf_ne ctx true _ ("connect") (by decide), securePart_timersOf,
        hcp, lookupPart_timersOf_ne ctx a s ("connect") (by decide)]
  · intro hcond
    have hne : ¬ (ctx.socketPath || isIPTarget ctx) = true := by
      rw [hcond]
      exact Bool.false_ne_true
    have hcp : ∀ u : St, connectPart ctx u
        = addL { target := Emitter.socket, ev := "lookup", h := Handler.connectLookupListener,
                 isOnce := true, tracked := true } u := by
      intro u
      unfold connectPart
      rw [hC]
      dsimp only
      rw [if_neg hne]
    refine ⟨?_, ?_, ?_, ?_⟩
    · show timersOf ("connect")
          (sendPart ctx true (securePart ctx (connectPart ctx (lookupPart ctx a s)))) = _
      rw [sendPart_timersOf_ne ctx true _ ("connect") (by decide), securePart_timersOf, hcp,
          timersOf_addL, lookupPart_timersOf_ne ctx a s ("connect") (by decide)]
    · show _ ∈ (sendPart ctx true (securePart ctx (connectPart ctx (lookupPart ctx a s)))).listeners
      refine sendPart_listeners_mono ctx true _ (securePart_listeners_mono ctx _ ?_)
      rw [hcp]
      exact List.mem_append.mpr (Or.inr (by simp))
    · intro s' e0
      rw [runHandler_connectLookup_failure]
    · intro s'
      rw [runHandler_connectLookup_success, hC]
      dsimp only
      rw [timersOf_addL, timersOf_addTimeout_same]

/-- Witness for C5: under the unix-socket-path context the connect timer is
armed at socket arrival; under the plain hostname context the lookup
success handler arms it. -/
theorem C5_witness :
    timersOf ("connect") (socketBody ctxPath true false initSt)
      = timersOf ("connect") initSt
        ++ [{ delay := 2, event := "connect", tstate := TState.waiting }]
    ∧ timersOf ("connect")
        (runHandler ctxAll Handler.connectLookupListener (EvData.lookupRes none) initSt)
      = timersOf ("connect") initSt
        ++ [{ delay := 2, event := "connect", tstate := TState.waiting }] := by
  constructor
  · exact (C5_connect_arming ctxPath 2 rfl false initSt).1 (by decide)
  · exact (((C5_connect_arming ctxAll 2 rfl false initSt).2 (by decide)).2.2.2) initSt

/-- C6: when a lookup delay is configured and the socket signal arrives
with the socket connecting, the lookup timer is armed exactly when no
unix socket path is in use, the target is not a literal IP and the
socket has no resolved address yet; its cancel is registered on the
socket lookup signal; and that cancel disarms the timer on any lookup
signal, success and error alike. -/
theorem C6_lookup_arming (ctx : Ctx) (d : Nat) (hL : ctx.delays.lookup = some d)
    (hasAddr : Bool) (s : St) :
    ((!ctx.socketPath && !isIPTarget ctx && !hasAddr) = true →
      timersOf ("lookup") (socketBody ctx true hasAddr s)
        = timersOf ("lookup") s ++ [{ delay := d, event := "lookup", tstate := TState.waiting }]
      ∧ { target := Emitter.socket, ev := "lookup", h := Handler.timerCancel s.timers.length,
          isOnce := true, tracked := true } ∈ (socketBody ctx true hasAddr s).listeners
      ∧ (socketBody ctx true hasAddr s).timers[s.timers.length]?
          = some { delay := d, event := "lookup", tstate := TState.waiting })
    ∧ ((!ctx.socketPath && !isIPTarget ctx && !hasAddr) = false →
      timersOf ("lookup") (socketBody ctx true hasAddr s) = timersOf ("lookup") s)
    ∧ (∀ (s' : St) (i : Nat) (t : Timer) (eo : Option ErrObj),
        s'.timers[i]? = some t → t.tstate = TState.waiting →
        (runHandler ctx (Handler.timerCancel i) (EvData.lookupRes eo) s').timers[i]?
          = some { t with tstate := TState.canceled }) := by
  refine ⟨?_, ?_, ?_⟩
  · intro hcond
    have hlp : lookupPart ctx hasAddr s
        = addL { target := Emitter.socket, ev := "lookup",
                 h := Handler.timerCancel s.timers.length, isOnce := true, tracked := true }
            (addTimeout d ("lookup") s).2 := by
      unfold lookupPart
      rw [hL]
      dsimp only
      rw [if_pos hcond]
      rfl
    refine ⟨?_, ?_, ?_⟩
    · show timersOf ("lookup")
          (sendPart ctx true (securePart ctx (connectPart ctx (lookupPart ctx hasAddr s)))) = _
      rw [sendPart_timersOf_ne ctx true _ ("lookup") (by decide), securePart_timersOf,
          connectPart_timersOf_ne ctx _ ("lookup") (by decide), hlp, timersOf_addL,
          timersOf_addTimeout_same]
    · show _ ∈ (sendPart ctx true
          (securePart ctx (connectPart ctx (lookupPart ctx hasAddr s)))).listeners
      refine sendPart_listeners_mono ctx true _ (securePart_listeners_mono ctx _
        (connectPart_listeners_mono ctx _ ?_))
      rw [hlp]
      exact List.mem_append.mpr (Or.inr (by simp))
    · obtain ⟨more, hmore⟩ := ((connectPart_extends ctx (lookupPart ctx hasAddr s)).trans
        (securePart_extends ctx _)).trans (sendPart_extends ctx true _)
      show (sendPart ctx true
          (securePart ctx (connectPart ctx (lookupPart ctx hasAddr s)))).timers[s.timers.length]?
        = _
      rw [← hmore, hlp]
      show ((s.timers ++ [{ delay := d, event := "lookup", tstate := TState.waiting }])
          ++ more)[s.timers.length]? = _
      exact getElem?_append_self s.timers _ more
  · intro hcond
    have hlp : lookupPart ctx hasAddr s = s := by
      unfold lookupPart
      rw [hL]
      dsimp only
      rw [if_neg (by rw [hcond]; exact Bool.false_ne_true)]
    show timersOf ("lookup")
        (sendPart ctx true (securePart ctx (connectPart ctx (lookupPart ctx hasAddr s)))) = _
    rw [sendPart_timersOf_ne ctx true _ ("lookup") (by decide), securePart_timersOf,
        connectPart_timersOf_ne ctx _ ("lookup") (by decide), hlp]
  · intro s' i t eo hi hw
    rw [runHandler_timerCancel]
    show (cancelAt i s'.timers)[i]? = _
    rw [cancelAt, getElem?_mapAt_self, hi]
    have hco : cancelOne t = { t with tstate := TState.canceled } := by
      cases t with
      | mk dl ev st =>
        cases st with
        | waiting => rfl
        | deferred => rfl
        | canceled => rfl
        | done => exact nomatch hw
    simp [hco]

/-- Witness for C6: the lookup timer of a concrete connecting socket with
no address, and its cancellation by a lookup signal carrying an error. -/
theorem C6_witness :
    timersOf ("lookup") (socketBody ctxAll true false initSt)
      = timersOf ("lookup") initSt
        ++ [{ delay := 1, event := "lookup", tstate := TState.waiting }]
    ∧ (runHandler ctxAll (Handler.timerCancel 0)
        (EvData.lookupRes
          (some
            { name := "Error", message := "ENOTFOUND", code := some "ENOTFOUND",
              event := none }))
        (addTimeout 1 ("lookup") initSt).2).timers[0]?
      = some { delay := 1, event := "lookup", tstate := TState.canceled } := by
  constructor
  · exact ((C6_lookup_arming ctxAll 1 rfl false initSt).1 (by decide)).1
  · exact (C6_lookup_arming ctxAll 1 rfl false initSt).2.2
      (addTimeout 1 ("lookup") initSt).2 0
      { delay := 1, event := "lookup", tstate := TState.waiting }
      (some
        { name := "Error", message := "ENOTFOUND", code := some "ENOTFOUND", event := none })
      (by decide) rfl

/-- C7: in every reachable state, no timer exists for a phase whose delay
is absent from the configuration, and when the socket delay is absent
the native idle-timeout handler is not installed either. -/
theorem C7_absent_phase_no_timer (ctx : Ctx) (s : St) (h : Reachable ctx s)
    (p : String) (hp : phaseDelay ctx p = none) :
    (∀ t ∈ s.timers, ¬ t.event = p)
    ∧ (p = "socket" → ∀ l ∈ s.listeners, ¬ l.h = Handler.socketTimeoutHandler) := by
  have hInv := reachable_inv h
  constructor
  · intro t ht hev
    have hcfg := hInv.cfg t ht
    rw [hev, hp] at hcfg
    cases hcfg
  · intro hsock l hl hh
    have h2 := (hInv.sockCov l hl hh).2
    rw [hsock] at hp
    have h3 : ctx.delays.socket = none := (phaseDelay_socket ctx).symm.trans hp
    rw [h3] at h2
    cases h2

/-- Witness for C7: the lookup phase is absent in the concrete context, and
the only timer after attach and socket arrival is the request timer. -/
theorem C7_witness :
    phaseDelay ctxEx ("lookup") = none
    ∧ ¬ (Timer.mk 5 ("request") TState.waiting).event = "lookup" := by
  refine ⟨rfl, ?_⟩
  exact (C7_absent_phase_no_timer ctxEx
    (step ctxEx (Step.emitSocket true false) (attachTo ctxEx initSt).2)
    (Reachable.next (Step.emitSocket true false) Reachable.base) ("lookup") rfl).1
    (Timer.mk 5 ("request") TState.waiting) (by decide)

/-- C8: the breach handler emits exactly one TimeoutError on the request
error channel, carrying the phase name in its event field, code
ETIMEDOUT, and the configured threshold inside its message, then aborts
the request; it performs no cancellation of its own: with no error
listeners present, timers, listeners and cancelers are untouched. -/
theorem C8_breach_handler (ctx : Ctx) (dl : Nat) (ev : String) (s : St)
    (hq : ∀ l ∈ s.listeners, ¬(l.target = Emitter.request ∧ l.ev = "error")) :
    timeoutHandler ctx dl ev s
      = { s with emitted := s.emitted ++ [TimeoutError dl ev], aborted := true }
    ∧ (TimeoutError dl ev).code = some "ETIMEDOUT"
    ∧ (TimeoutError dl ev).event = some ev
    ∧ (TimeoutError dl ev).name = "TimeoutError"
    ∧ (TimeoutError dl ev).message
        = "Timeout awaiting " ++ sq ++ ev ++ sq ++ " for " ++ toString dl ++ "ms" := by
  refine ⟨?_, rfl, rfl, rfl, rfl⟩
  show { (emitWith (fun h e u => runHandler ctx h e u) Emitter.request ("error")
      (EvData.err (TimeoutError dl ev)) { s with emitted := s.emitted ++ [TimeoutError dl ev] })
      with aborted := true } = _
  rw [emitWith_no_listeners (fun h e u => runHandler ctx h e u) Emitter.request ("error")
    (EvData.err (TimeoutError dl ev))
    { s with emitted := s.emitted ++ [TimeoutError dl ev] } hq]

/-- Witness for C8: the breach handler on the empty listener set under the
concrete context. -/
theorem C8_witness :
    timeoutHandler ctxEx 5 ("request") initSt
      = { initSt with emitted := [TimeoutError 5 ("request")], aborted := true }
    ∧ (TimeoutError 5 ("request")).code = some "ETIMEDOUT" := by
  have h := C8_breach_handler ctxEx 5 ("request") initSt (by simp [initSt])
  exact ⟨h.1.trans (by decide), h.2.1⟩

/-- C9: with a socket delay configured, cancelAll on any reachable state
removes the idle-timeout handler the supervisor itself installed on the
native timeout primitive, and leaves every foreign listener exactly as
it was. -/
theorem C9_socket_idle_cleanup (ctx : Ctx) (s : St) (h : Reachable ctx s)
    (d : Nat) (_hd : ctx.delays.socket = some d) :
    (∀ l ∈ (cancelTimeouts s).listeners, ¬ l.h = Handler.socketTimeoutHandler)
    ∧ foreignListeners (cancelTimeouts s) = foreignListeners s := by
  have hInv := reachable_inv h
  constructor
  · intro l hl
    exact plain_ne_sock ((cancelTimeouts_detached hInv).2 l hl)
  · exact cancelTimeouts_foreign hInv

/-- Witness for C9: a foreign listener subscribed to the native timeout
primitive survives cancelAll unchanged. -/
theorem C9_witness :
    foreignListeners (cancelTimeouts (step ctxEx (Step.addForeign Emitter.request ("timeout") 3)
        (attachTo ctxEx initSt).2))
      = foreignListeners (step ctxEx (Step.addForeign Emitter.request ("timeout") 3)
        (attachTo ctxEx initSt).2) := by
  exact (C9_socket_idle_cleanup ctxEx _
    (Reachable.next (Step.addForeign Emitter.request ("timeout") 3) Reachable.base) 7 rfl).2

/-- C10: the reentry marker is never cleared: every reachable state is
still marked, so any later attach on the same request — including after
cancelAll has fully detached the first attachment — is a no-op
returning the trivial handle whose invocation has no effect. -/
theorem C10_reentry_permanent (ctx : Ctx) (s : St) (h : Reachable ctx s) :
    s.reentry = true
    ∧ ∀ ctx2 : Ctx, attachTo ctx2 s = (false, s)
      ∧ ∀ u : St, runHandle (attachTo ctx2 s).1 u = u := by
  have hre := (reachable_inv h).reent
  refine ⟨hre, fun ctx2 => ?_⟩
  have heq := attachTo_marked ctx2 hre
  refine ⟨heq, fun u => ?_⟩
  rw [heq]
  rfl

/-- Witness for C10: after cancelAll has fully detached the concrete
attachment, a new attach with a full configuration is still a no-op. -/
theorem C10_witness :
    attachTo ctxAll (step ctxEx Step.callCancelAll (attachTo ctxEx initSt).2)
      = (false, step ctxEx Step.callCancelAll (attachTo ctxEx initSt).2) := by
  exact ((C10_reentry_permanent ctxEx _
    (Reachable.next Step.callCancelAll Reachable.base)).2 ctxAll).1

end TimedOut
